import Mathlib

/-!
# Monte Carlo Ising simulator: the Metropolis kernel and its driver

A shallow embedding of `src/main.c`.

Modelling conventions.

* The C `float` globals `h`, `t`, `j` are values of a linearly ordered field
  `K`; the key handlers and the energy formula of line 135 are carried exactly
  in `K`. On a grid of spins and for binary32 `j`, `h` the products of line 135
  are exact in binary32, so the stored `eni` is the rounding `toFloat` of the
  exact energy and has its sign.
* The acceptance path (lines 141 and 142) is computed in binary32: the stored
  energy, the difference `enf - eni`, the quotient `-1 / t`, the product, the
  result of `expf`, the conversions of `rand()` and `RAND_MAX`, and the product
  `RAND_MAX * prob` are each rounded to nearest, ties to even (`toFloat`). The
  IEEE 754 special values that arise there (`-1 / t` with `t = 0`, overflow)
  are modelled by `CFloat`.
* `int` values are mathematical integers; where an `int` can overflow
  (`wait += 10`) the result is wrapped to 32 bits.
* `char` is the signed 8 bit type. `char state[rows][cols]` is a grid of
  integers together with its declared bounds. Every subscript is checked
  against the declared bounds; a subscript outside them is the fault
  `outOfBounds`.
* `rand()` is an infinite sequence of non-negative results together with the
  position of the next unread one. `RAND_MAX` and `expf` belong to the C
  library, not to the program, and are parameters (`Libc`).
-/

namespace Ising

/-! ## Data model -/

/-- Ways in which an execution leaves the defined behaviour of C. -/
inductive Fault where
  | divByZero
  | outOfBounds
  deriving DecidableEq, Repr

/-- A C `float` as this program can produce it: a finite value or one of the
IEEE 754 special values. -/
inductive CFloat (K : Type) where
  | fin (v : K)
  | pinf
  | ninf
  | nan
  deriving DecidableEq, Repr

/-- The parts of the C library the kernel uses (`stdlib.h`, `math.h`). -/
structure Libc (K : Type) where
  RAND_MAX : Nat
  expf : K → K

/-- The mutable globals of `main.c`, lines 40-45. -/
structure Params (K : Type) where
  h : K
  t : K
  j : K
  wait : Int

/-- Contents of `char state[rows][cols]`, by first and second subscript. -/
abbrev Grid := Int → Int → Int

/-- Result of one call of `transitionState`: the returned flag, the array after
the call, and the position of the next unread `rand()` result. -/
structure Outcome where
  accepted : Bool
  state : Grid
  pos : Nat

variable {K : Type} [LinearOrderedField K]

/-- Initial values of the globals: `h = 0.0`, `t = 0.2`, `j = 1.0`, `wait = 0`. -/
def initialParams : Params K := ⟨0, 1 / 5, 1, 0⟩

/-! ## Machine arithmetic -/

/-- Conversion of an `int` to a (signed, 8 bit) `char`. -/
def toChar (v : Int) : Int := (v + 128) % 256 - 128

/-- Conversion of a mathematical integer to a 32 bit `int`. -/
def toInt32 (v : Int) : Int := (v + 2147483648) % 4294967296 - 2147483648

/-- Conversion of an integer to `Uint32`. -/
def toUint32 (v : Int) : Int := v % 4294967296

/-- The C remainder `a % b` (truncating division); a zero divisor is a fault. -/
def cRem (a b : Int) : Except Fault Int :=
  if b = 0 then .error .divByZero else .ok (Int.tmod a b)

/-- Rounding to the nearest integer, ties to the even one. -/
def roundEven [FloorRing K] (y : K) : Int :=
  if y - (⌊y⌋ : K) < 1 / 2 then ⌊y⌋
  else if 1 / 2 < y - (⌊y⌋ : K) then ⌊y⌋ + 1
  else if ⌊y⌋ % 2 = 0 then ⌊y⌋ else ⌊y⌋ + 1

/-- The binary32 exponent of `x`: the largest `e` with `2 ^ e <= |x|`, and
`-126` in the subnormal range. -/
def expo32 [FloorRing K] (x : K) : Int := max (Int.log 2 |x|) (-126)

/-- Rounding of an exact value to binary32 (IEEE 754 single precision, round to
nearest, ties to even): 24 significant bits, subnormals below `2 ^ -126`, and
an infinity when the rounded magnitude reaches `2 ^ 128`. -/
def toFloat [FloorRing K] (x : K) : CFloat K :=
  if (2 : K) ^ 128 ≤ (roundEven (x / (2 : K) ^ (expo32 x - 23)) : K) * (2 : K) ^ (expo32 x - 23)
  then .pinf
  else if (roundEven (x / (2 : K) ^ (expo32 x - 23)) : K) * (2 : K) ^ (expo32 x - 23)
      ≤ -(2 : K) ^ 128
  then .ninf
  else .fin ((roundEven (x / (2 : K) ^ (expo32 x - 23)) : K) * (2 : K) ^ (expo32 x - 23))

/-- The negation `-a` of a float. -/
def fneg : CFloat K → CFloat K
  | .fin a => .fin (-a)
  | .pinf => .ninf
  | .ninf => .pinf
  | .nan => .nan

/-- The binary32 product `a * b` of two floats. -/
def fmulC [FloorRing K] : CFloat K → CFloat K → CFloat K
  | .fin a, .fin b => toFloat (a * b)
  | .fin a, .pinf => if a = 0 then .nan else if 0 < a then .pinf else .ninf
  | .fin a, .ninf => if a = 0 then .nan else if 0 < a then .ninf else .pinf
  | .pinf, .fin b => if b = 0 then .nan else if 0 < b then .pinf else .ninf
  | .ninf, .fin b => if b = 0 then .nan else if 0 < b then .ninf else .pinf
  | .pinf, .pinf => .pinf
  | .pinf, .ninf => .ninf
  | .ninf, .pinf => .ninf
  | .ninf, .ninf => .pinf
  | .nan, _ => .nan
  | _, .nan => .nan

/-- The binary32 difference `a - b` of two floats. -/
def fsubC [FloorRing K] : CFloat K → CFloat K → CFloat K
  | .fin a, .fin b => toFloat (a - b)
  | .fin _, .pinf => .ninf
  | .fin _, .ninf => .pinf
  | .pinf, .fin _ => .pinf
  | .ninf, .fin _ => .ninf
  | .pinf, .ninf => .pinf
  | .ninf, .pinf => .ninf
  | .pinf, .pinf => .nan
  | .ninf, .ninf => .nan
  | .nan, _ => .nan
  | _, .nan => .nan

/-- The comparison `a < b` of two floats (false when one of them is a NaN). -/
def fltC : CFloat K → CFloat K → Bool
  | .fin a, .fin b => decide (a < b)
  | .fin _, .pinf => true
  | .ninf, .fin _ => true
  | .ninf, .pinf => true
  | _, _ => false

/-- The binary32 quotient `a / b` of two finite floats (`b = 0` is the positive
zero). -/
def fdiv [FloorRing K] (a b : K) : CFloat K :=
  if b = 0 then (if a = 0 then .nan else if 0 < a then .pinf else .ninf)
  else toFloat (a / b)

/-- The binary32 product of a float and a finite float. -/
def fmul [FloorRing K] (a : CFloat K) (b : K) : CFloat K := fmulC a (.fin b)

/-- The call `expf(v)`: the result of the library function is a binary32 value,
and the special values are mapped as `expf(+inf) = +inf`, `expf(-inf) = 0`,
`expf(NaN) = NaN`. -/
def fexp [FloorRing K] (expf : K → K) : CFloat K → CFloat K
  | .fin v => toFloat (expf v)
  | .pinf => .pinf
  | .ninf => .fin 0
  | .nan => .nan

/-! ## Array access -/

/-- The subscript pair `[a][b]` lies inside `char state[rows][cols]`. -/
def inGrid (rows cols a b : Int) : Prop := 0 ≤ a ∧ a < rows ∧ 0 ≤ b ∧ b < cols

instance (rows cols a b : Int) : Decidable (inGrid rows cols a b) := by
  unfold inGrid; infer_instance

/-- Reading `state[a][b]`. -/
def readCell (rows cols : Int) (state : Grid) (a b : Int) : Except Fault Int :=
  if inGrid rows cols a b then .ok (state a b) else .error .outOfBounds

/-- The array with `v` stored at `[a][b]` and every other cell unchanged. -/
def setCell (state : Grid) (a b v : Int) : Grid :=
  fun a' b' => if a' = a ∧ b' = b then v else state a' b'

/-- Writing `state[a][b] = v`. -/
def writeCell (rows cols : Int) (state : Grid) (a b v : Int) : Except Fault Grid :=
  if inGrid rows cols a b then .ok (setCell state a b v) else .error .outOfBounds

/-! ## `initState` (lines 116-120) -/

/-- The loop body `state[i][j] = 2 * (rand() % 2) - 1`. -/
def initCell (rand : Nat → Nat) (i : Nat) (acc : Grid × Nat) (j : Nat) : Grid × Nat :=
  (setCell acc.1 i j (toChar (2 * (Int.tmod (rand acc.2) 2) - 1)), acc.2 + 1)

/-- The inner loop `for (int j = 0; j < cols; j++)`. -/
def initRow (rand : Nat → Nat) (cols : Int) (acc : Grid × Nat) (i : Nat) : Grid × Nat :=
  (List.range cols.toNat).foldl (initCell rand i) acc

/-- The function `initState`: fills the array from the random source, starting
at position `pos`; returns the array and the position reached. -/
def initState (rand : Nat → Nat) (pos : Nat) (rows cols : Int) (state : Grid) : Grid × Nat :=
  (List.range rows.toNat).foldl (initRow rand cols) (state, pos)

/-! ## `transitionState` (lines 122-153) -/

/-- The choice of a position: `x = rand() % cols; y = rand() % rows`. -/
def selectCell (rand : Nat → Nat) (pos : Nat) (rows cols : Int) : Except Fault (Int × Int) := do
  let x ← cRem (rand pos) cols
  let y ← cRem (rand (pos + 1)) rows
  pure (x, y)

/-- The coordinate `xL = (x == 0) ? (cols - 1) : (x - 1)`. -/
def xL (cols x : Int) : Int := if x = 0 then cols - 1 else x - 1

/-- The coordinate `xR = (x == cols - 1) ? (0) : (x + 1)`. -/
def xR (cols x : Int) : Int := if x = cols - 1 then 0 else x + 1

/-- The coordinate `yT = (y == 0) ? (rows - 1) : (y - 1)`. -/
def yT (rows y : Int) : Int := if y = 0 then rows - 1 else y - 1

/-- The coordinate `yB = (y == rows - 1) ? (0) : (y + 1)`. -/
def yB (rows y : Int) : Int := if y = rows - 1 then 0 else y + 1

/-- The five subscript pairs `transitionState` uses for the position `(x, y)`:
`state[x][y]`, `state[xL][y]`, `state[xR][y]`, `state[x][yT]`, `state[x][yB]`. -/
def touched (rows cols x y : Int) : List (Int × Int) :=
  [(x, y), (xL cols x, y), (xR cols x, y), (x, yT rows y), (x, yB rows y)]

/-- The sum `state[xL][y] + state[xR][y] + state[x][yT] + state[x][yB]`. -/
def neighbourSum (rows cols : Int) (state : Grid) (x y : Int) : Except Fault Int := do
  let a ← readCell rows cols state (xL cols x) y
  let b ← readCell rows cols state (xR cols x) y
  let c ← readCell rows cols state x (yT rows y)
  let d ← readCell rows cols state x (yB rows y)
  pure (a + b + c + d)

/-- The initial state energy
`eni = -j * state[x][y] * (neighbour sum) - h * state[x][y]`. -/
def initialEnergy (p : Params K) (rows cols : Int) (state : Grid) (x y : Int) :
    Except Fault K := do
  let s ← readCell rows cols state x y
  let n ← neighbourSum rows cols state x y
  pure (-p.j * (s : K) * (n : K) - p.h * (s : K))

/-- The array after the statement `state[x][y] *= -1`. -/
def flipped (state : Grid) (x y : Int) : Grid :=
  setCell state x y (toChar (state x y * -1))

/-- The statement `state[x][y] *= -1`. -/
def flipCell (rows cols : Int) (state : Grid) (x y : Int) : Except Fault Grid := do
  let s ← readCell rows cols state x y
  writeCell rows cols state x y (toChar (s * -1))

/-- Every cell of `char state[rows][cols]` holds `-1` or `+1`. -/
def spinGrid (rows cols : Int) (state : Grid) : Prop :=
  ∀ a b, inGrid rows cols a b → state a b = 1 ∨ state a b = -1

/-- The value `prob = expf(-1 / t * d)` of line 141 in binary32 arithmetic, as a
function of `t` and of a finite value `d` of the difference `enf - eni` (it is
`acceptProbF` at the finite float `d`). -/
def acceptProb [FloorRing K] (lib : Libc K) (t d : K) : CFloat K :=
  fexp lib.expf (fmul (fdiv (-1) t) d)

/-- The difference `enf - eni` as line 141 computes it: `eni` is the binary32
value of the initial energy, `enf = -eni`, and the difference is rounded. -/
def energyGap [FloorRing K] (eni : K) : CFloat K :=
  fsubC (fneg (toFloat eni)) (toFloat eni)

/-- The value `prob = expf(-1 / t * (enf - eni))` of line 141 in binary32
arithmetic, as a function of `t` and of the float `gap = enf - eni`. -/
def acceptProbF [FloorRing K] (lib : Libc K) (t : K) (gap : CFloat K) : CFloat K :=
  fexp lib.expf (fmulC (fdiv (-1) t) gap)

/-- The test `accept = rand() < RAND_MAX * prob` of line 142 for the draw `r`:
`rand()` and `RAND_MAX` are converted to binary32, the product is rounded to
binary32, and the two floats are compared. -/
def acceptTest [FloorRing K] (lib : Libc K) (r : Nat) (prob : CFloat K) : Bool :=
  fltC (toFloat (r : K)) (fmulC (toFloat (lib.RAND_MAX : K)) prob)

/-- The draw `u = rand() / RAND_MAX` in which the specification words the
acceptance rule, for the `rand()` result `r`. -/
def specDraw (lib : Libc K) (r : Nat) : K := (r : K) / (lib.RAND_MAX : K)

/-- The function `transitionState`. The energy `eni` and the test `enf >= eni`
are taken on the exact value of the energy formula, which has the sign of its
binary32 value for binary32 `j` and `h`; the acceptance probability and the
acceptance test are computed in binary32. -/
def transitionState [FloorRing K] (lib : Libc K) (p : Params K) (rand : Nat → Nat) (pos : Nat)
    (rows cols : Int) (state : Grid) : Except Fault Outcome := do
  let (x, y) ← selectCell rand pos rows cols
  let eni ← initialEnergy p rows cols state x y
  let enf := -eni
  if enf ≥ eni then
    let prob := acceptProbF lib p.t (energyGap eni)
    let accept := acceptTest lib (rand (pos + 2)) prob
    if accept then
      let state' ← flipCell rows cols state x y
      pure ⟨true, state', pos + 3⟩
    else
      pure ⟨false, state, pos + 3⟩
  else
    let state' ← flipCell rows cols state x y
    pure ⟨true, state', pos + 2⟩

/-! ## `handleEvents` (lines 155-207) -/

/-- The key symbols the `switch` distinguishes; `other` is any unbound key. -/
inductive Key where
  | UP | DOWN | LEFT | RIGHT | j | n | k | m | ESCAPE | other
  deriving DecidableEq, Repr

/-- An SDL event, as far as `handleEvents` looks at it. -/
inductive Event where
  | quit
  | keydown (sym : Key)
  | other
  deriving DecidableEq, Repr

/-- The `switch (e.key.keysym.sym)` of lines 163-202 for one key press.
The result `none` is the `return true` of `case SDLK_ESCAPE`. -/
def keyDown (p : Params K) : Key → Option (Params K)
  | .UP => some { p with t := p.t + 1 / 10 }
  | .DOWN => some { p with t := if p.t - 1 / 10 < 0 then 0 else p.t - 1 / 10 }
  | .LEFT => some { p with h := p.h - 1 / 20 }
  | .RIGHT => some { p with h := p.h + 1 / 20 }
  | .j => some { p with j := p.j + 1 / 10 }
  | .n => some { p with j := p.j - 1 / 10 }
  | .k => some { p with wait := toInt32 (p.wait + 10) }
  | .m => some { p with wait := if toInt32 (p.wait - 10) < 0 then 0 else toInt32 (p.wait - 10) }
  | .ESCAPE => none
  | .other => some p

/-- Result of one call of `handleEvents`: the returned flag and the globals
after the call. -/
structure Polled (K : Type) where
  quit : Bool
  params : Params K

/-- The function `handleEvents`, run on the events pending in the queue. -/
def handleEvents (p : Params K) : List Event → Polled K
  | [] => ⟨false, p⟩
  | .quit :: _ => ⟨true, p⟩
  | .keydown sym :: rest =>
    match keyDown p sym with
    | none => ⟨true, p⟩
    | some p' => handleEvents p' rest
  | .other :: rest => handleEvents p rest

/-- The globals after successive calls of `handleEvents`, one per queue. -/
def pollAll (p : Params K) (queues : List (List Event)) : Params K :=
  queues.foldl (fun q evs => (handleEvents q evs).params) p

/-- The parameter update of the specification for one key press:
temperature `max(0, t + delta)` with delta `+0.1` / `-0.1`, field `+0.05` /
`-0.05`, coupling `+0.1` / `-0.1`, render interval `max(0, wait + delta)` with
delta `+10` / `-10`; every other key leaves the parameters as they are. -/
def specAdjust (p : Params K) : Key → Params K
  | .UP => { p with t := max 0 (p.t + 1 / 10) }
  | .DOWN => { p with t := max 0 (p.t - 1 / 10) }
  | .LEFT => { p with h := p.h - 1 / 20 }
  | .RIGHT => { p with h := p.h + 1 / 20 }
  | .j => { p with j := p.j + 1 / 10 }
  | .n => { p with j := p.j - 1 / 10 }
  | .k => { p with wait := max 0 (p.wait + 10) }
  | .m => { p with wait := max 0 (p.wait - 10) }
  | .ESCAPE => p
  | .other => p

/-! ## The main loop (lines 256-290) -/

/-- What the program does to the lattice and the screen: a call of
`transitionState` with its result, or a render (the clock value read in the
render test, the clock value stored in `timer`, the value of `wait`, the
array drawn). -/
inductive Act where
  | step (accepted : Bool)
  | render (now stamp wait : Int) (frame : Grid)

/-- The call is a call of `transitionState`. -/
def Act.isStep : Act → Bool
  | .step _ => true
  | .render _ _ _ _ => false

/-- The call is a render. -/
def Act.isRender : Act → Bool
  | .step _ => false
  | .render _ _ _ _ => true

/-- What the loop reads from outside: the results of `rand()`, the results of
`SDL_GetTicks()` in the order of the calls, and the events pending at the
poll of each iteration. -/
structure Env where
  rand : Nat → Nat
  ticks : Nat → Nat
  events : Nat → List Event

/-- The variables of the main loop with the globals, the positions reached in
the outside sequences, and the log of calls (most recent first). -/
structure Driver (K : Type) where
  params : Params K
  state : Grid
  timer : Int
  transitionReady : Bool
  quit : Bool
  iter : Nat
  randPos : Nat
  tickPos : Nat
  log : List Act

/-- The statement `if (!transitionReady) transitionReady = transitionState(...)`. -/
def seekStep [FloorRing K] (lib : Libc K) (env : Env) (rows cols : Int) (d : Driver K) :
    Except Fault (Driver K) :=
  if d.transitionReady then pure d
  else do
    let o ← transitionState lib d.params env.rand d.randPos rows cols d.state
    pure { d with transitionReady := o.accepted, state := o.state, randPos := o.pos,
                  log := .step o.accepted :: d.log }

/-- The statement
`if (transitionReady && SDL_GetTicks() - timer > wait) { timer = SDL_GetTicks(); ... }`. -/
def renderStep (env : Env) (d : Driver K) : Driver K :=
  if d.transitionReady then
    let now := toUint32 (env.ticks d.tickPos)
    if toUint32 (now - d.timer) > toUint32 d.params.wait then
      let stamp := toUint32 (env.ticks (d.tickPos + 1))
      { d with timer := stamp, transitionReady := false, tickPos := d.tickPos + 2,
               log := .render now stamp d.params.wait d.state :: d.log }
    else { d with tickPos := d.tickPos + 1 }
  else d

/-- One iteration of `while (!quit)`. -/
def loopBody [FloorRing K] (lib : Libc K) (env : Env) (rows cols : Int) (d : Driver K) :
    Except Fault (Driver K) := do
  let polled := handleEvents d.params (env.events d.iter)
  let d1 := { d with quit := polled.quit, params := polled.params, iter := d.iter + 1 }
  let d2 ← seekStep lib env rows cols d1
  pure (renderStep env d2)

/-- The loop `while (!quit)`, run for at most `fuel` iterations. -/
def mainLoop [FloorRing K] (lib : Libc K) (env : Env) (rows cols : Int) :
    Nat → Driver K → Except Fault (Driver K)
  | 0, d => .ok d
  | fuel + 1, d =>
    if d.quit then .ok d
    else do
      let d' ← loopBody lib env rows cols d
      mainLoop lib env rows cols fuel d'

/-- Number of calls of `transitionState` in a log. -/
def stepCount (log : List Act) : Nat := (log.filter Act.isStep).length

/-- Number of renders in a log. -/
def renderCount (log : List Act) : Nat := (log.filter Act.isRender).length

/-- Number of calls of `transitionState` that returned true in a log. -/
def acceptCount : List Act → Nat
  | [] => 0
  | .step true :: rest => acceptCount rest + 1
  | .step false :: rest => acceptCount rest
  | .render _ _ _ _ :: rest => acceptCount rest

/-- The renders of a log, most recent first: for each one the clock value read
in the render test, the clock value stored in `timer`, and the value of `wait`. -/
def renderRecords : List Act → List (Int × Int × Int)
  | [] => []
  | .step _ :: rest => renderRecords rest
  | .render now stamp wait _ :: rest => (now, stamp, wait) :: renderRecords rest

/-- Two consecutive renders are at least the newer one's `wait` apart, whichever
of the two clock values of each render is taken as its time. -/
def throttled (newer older : Int × Int × Int) : Prop :=
  newer.2.2 ≤ newer.1 - older.1 ∧ newer.2.2 ≤ newer.1 - older.2.1 ∧
  newer.2.2 ≤ newer.2.1 - older.1 ∧ newer.2.2 ≤ newer.2.1 - older.2.1

/-- The arrays drawn by the renders of a log, most recent first, followed by the
array the loop started with. -/
def frames (start : Grid) : List Act → List Grid
  | [] => [start]
  | .step _ :: rest => frames start rest
  | .render _ _ _ frame :: rest => frame :: frames start rest

/-- The two arrays differ in exactly one cell, and that cell is inside the grid. -/
def oneCellApart (rows cols : Int) (newer older : Grid) : Prop :=
  ∃ x y, inGrid rows cols x y ∧ newer x y ≠ older x y ∧
    ∀ a b, (a, b) ≠ (x, y) → newer a b = older a b

/-- Two consecutive entries of a log alternate: the newer one is a render
exactly when the older one is a call of `transitionState` that returned true. -/
def alternates (newer older : Act) : Prop :=
  older = Act.step true ↔ newer.isRender = true

/-- The invariant of the main loop behind the throttling: `wait` is an `int`,
consecutive renders of the log are `throttled`, the test reading of a render is
not after its stamp, and `timer` holds the stamp of the most recent render,
which is a clock reading already made. -/
def throttleInv (env : Env) (d : Driver K) : Prop :=
  d.params.wait ≤ 2147483647 ∧
  List.Chain' throttled (renderRecords d.log) ∧
  (∀ r ∈ renderRecords d.log, r.1 ≤ r.2.1) ∧
  (∀ r ∈ (renderRecords d.log).head?,
    r.2.1 = d.timer ∧ ∃ k, k < d.tickPos ∧ d.timer = (env.ticks k : Int))

/-- The invariant of the main loop behind the alternation of accepted flips and
renders: the array is a spin grid, consecutive log entries alternate, the
oldest entry is not a render, a flip is pending exactly when the newest entry
is an accepted step, the counts of accepted steps and renders agree up to the
pending flip, consecutive frames are one cell apart, and the array is the
newest frame, up to the pending flip. -/
def alternationInv (rows cols : Int) (start : Grid) (d : Driver K) : Prop :=
  spinGrid rows cols d.state ∧
  List.Chain' alternates d.log ∧
  (∀ a ∈ d.log.getLast?, a.isRender = false) ∧
  (d.transitionReady = true ↔ d.log.head? = some (Act.step true)) ∧
  acceptCount d.log = renderCount d.log + (if d.transitionReady then 1 else 0) ∧
  List.Chain' (oneCellApart rows cols) (frames start d.log) ∧
  (∀ f ∈ (frames start d.log).head?,
    if d.transitionReady then oneCellApart rows cols d.state f else d.state = f)

/-! ## `main` (lines 234-297) -/

/-- The command line parsing of lines 237-243. The arguments after the program
name are given by the values `atoi` returns for them; with exactly two of them
(`argc == 3`) they become `rows` and `cols`, otherwise the defaults `100`, `100`
stay. -/
def parseDims : List Int → Int × Int
  | [a, b] => (a, b)
  | _ => (100, 100)

/-- The loop variables when the loop is entered: the array declared as
`char state[rows][cols]` (holding `garbage`) and filled by `initState`,
`timer = SDL_GetTicks()`, `transitionReady = false`, `quit = false`. -/
def startDriver (env : Env) (rows cols : Int) (garbage : Grid) : Driver K :=
  ⟨initialParams, (initState env.rand 0 rows cols garbage).1, toUint32 (env.ticks 0),
    false, false, 0, (initState env.rand 0 rows cols garbage).2, 1, []⟩

/-- The function `main`: the result is `none` when `init()` fails (the loop is
not entered) and the loop variables after at most `fuel` iterations otherwise. -/
def main [FloorRing K] (lib : Libc K) (env : Env) (initOk : Bool) (args : List Int) (garbage : Grid)
    (fuel : Nat) : Except Fault (Option (Driver K)) :=
  if initOk then do
    let d ← mainLoop lib env (parseDims args).1 (parseDims args).2 fuel
      (startDriver env (parseDims args).1 (parseDims args).2 garbage)
    pure (some d)
  else pure none

/-! ## Concrete inputs -/

/-- A grid whose cell `[0][1]` holds `-1` and every other cell `+1`. -/
def balancedGrid : Grid := fun a b => if a = 0 ∧ b = 1 then -1 else 1

/-- A grid whose cell `[0][0]` holds `-1` and every other cell `+1`. -/
def downGrid : Grid := fun a b => if a = 0 ∧ b = 0 then -1 else 1

/-- The grid with `+1` in every cell. -/
def upGrid : Grid := fun _ _ => 1

/-- A random source whose third result is `32767` and whose other results are `0`. -/
def lastDraw : Nat → Nat := fun n => if n = 2 then 32767 else 0

/-- A random source whose first result is `1` and whose other results are `0`. -/
def firstOne : Nat → Nat := fun n => if n = 0 then 1 else 0

/-- The initial parameters with the temperature lowered to `0`. -/
def coldParams : Params K := ⟨0, 0, 1, 0⟩

/-- The initial parameters with the temperature lowered to `0.0625`, a binary32
value. -/
def chilledParams : Params K := ⟨0, 1 / 16, 1, 0⟩

/-- An environment whose clock reads `5` at every call, whose random source
returns `0` and whose first poll finds a window-close event. -/
def quitEnv : Env := ⟨fun _ => 0, fun _ => 5, fun i => if i = 0 then [Event.quit] else []⟩

/-- A driver that is seeking on `downGrid`, with `timer = 0`. -/
def seekingDriver : Driver K := ⟨initialParams, downGrid, 0, false, false, 0, 0, 0, []⟩

/-- The initial parameters with `wait` at the last multiple of `10` below
`INT_MAX`. -/
def fullWait : Params K := ⟨0, 1 / 5, 1, 2147483640⟩

/-- An environment without events whose clock reads `5` at every call and whose
random source returns `0`. -/
def idleEnv : Env := ⟨fun _ => 0, fun _ => 5, fun _ => []⟩

/-- An environment without events whose clock reads `100` at every call and
whose random source returns `0`. -/
def lateEnv : Env := ⟨fun _ => 0, fun _ => 100, fun _ => []⟩

/-- A driver that is seeking on `downGrid` with `wait = 0`, last stamped at
clock value `5`. -/
def stampedDriver : Driver K := ⟨initialParams, downGrid, 5, false, false, 0, 0, 0, []⟩

/-- A driver that is seeking on `downGrid` with `wait = 10`, last stamped at
clock value `0`. -/
def waitingDriver : Driver K :=
  ⟨⟨0, 1 / 5, 1, 10⟩, downGrid, 0, false, false, 0, 0, 0, []⟩

/-- A grid whose diagonal cells hold `-1` and whose other cells hold `+1`. -/
def diagGrid : Grid := fun a b => if a = b then -1 else 1

/-- An environment without events whose clock reads `100`, `200`, ... up to
`1000` and whose random source returns `0`, `0` and then `1`. -/
def risingEnv : Env :=
  ⟨fun k => if k < 2 then 0 else 1, fun k => min (100 * (k + 1)) 1000, fun _ => []⟩

/-- A driver that is seeking on `diagGrid` with `wait = 10` and `timer = 0`. -/
def diagDriver : Driver K :=
  ⟨⟨0, 1 / 5, 1, 10⟩, diagGrid, 0, false, false, 0, 0, 0, []⟩

/-! ## Facts about binary32 rounding -/

section Rounding

variable [FloorRing K]

theorem roundEven_intCast (m : Int) : roundEven ((m : K)) = m := by
  simp [roundEven]

theorem roundEven_nonneg {y : K} (hy : 0 ≤ y) : 0 ≤ roundEven y := by
  have h : 0 ≤ ⌊y⌋ := Int.floor_nonneg.mpr hy
  unfold roundEven
  split_ifs <;> omega

theorem roundEven_nonpos {y : K} (hy : y ≤ 0) : roundEven y ≤ 0 := by
  have h : ⌊y⌋ ≤ 0 := by
    have := Int.floor_le y
    exact_mod_cast (Int.floor_mono hy).trans (by simp)
  rcases h.lt_or_eq with h1 | h1
  · unfold roundEven
    split_ifs <;> omega
  · have hy0 : y = 0 := by
      have := Int.floor_le y
      rw [h1] at this
      exact le_antisymm hy (by simpa using this)
    subst hy0
    simp [roundEven]

theorem roundEven_of_lt_half {y : K} (h0 : 0 ≤ y) (h1 : y < 1 / 2) : roundEven y = 0 := by
  have hf : ⌊y⌋ = 0 := by
    rw [Int.floor_eq_zero_iff]
    exact ⟨h0, by linarith⟩
  unfold roundEven
  rw [hf]
  simp only [Int.cast_zero, sub_zero]
  rw [if_pos h1]

theorem roundEven_pos {y : K} (hy : 1 ≤ y) : 1 ≤ roundEven y := by
  have h : 1 ≤ ⌊y⌋ := Int.le_floor.mpr (by simpa using hy)
  unfold roundEven
  split_ifs <;> omega

theorem ulp_pos (x : K) : (0 : K) < (2 : K) ^ (expo32 x - 23) := by
  positivity

theorem toFloat_nonneg {x : K} (hx : 0 ≤ x) :
    toFloat x = .pinf ∨ ∃ y, 0 ≤ y ∧ toFloat x = .fin y := by
  have hq := ulp_pos x
  have hr : (0 : K) ≤ (roundEven (x / (2 : K) ^ (expo32 x - 23)) : K) := by
    exact_mod_cast roundEven_nonneg (div_nonneg hx hq.le)
  have hy := mul_nonneg hr hq.le
  unfold toFloat
  split_ifs with h1 h2
  · exact Or.inl rfl
  · have : (0 : K) < (2 : K) ^ 128 := by positivity
    linarith
  · exact Or.inr ⟨_, hy, rfl⟩

theorem toFloat_nonpos {x : K} (hx : x ≤ 0) :
    toFloat x = .ninf ∨ ∃ y, y ≤ 0 ∧ toFloat x = .fin y := by
  have hq := ulp_pos x
  have hr : (roundEven (x / (2 : K) ^ (expo32 x - 23)) : K) ≤ 0 := by
    exact_mod_cast roundEven_nonpos (div_nonpos_of_nonpos_of_nonneg hx hq.le)
  have hy := mul_nonpos_of_nonpos_of_nonneg hr hq.le
  unfold toFloat
  split_ifs with h1 h2
  · have : (0 : K) < (2 : K) ^ 128 := by positivity
    linarith
  · exact Or.inl rfl
  · exact Or.inr ⟨_, hy, rfl⟩

theorem toFloat_zero : toFloat (0 : K) = .fin 0 := by
  have h : roundEven ((0 : K)) = 0 := by simpa using roundEven_intCast (K := K) 0
  have hp : ¬ (2 : K) ^ 128 ≤ 0 := not_le.mpr (by positivity)
  have hn : ¬ (0 : K) ≤ -(2 : K) ^ 128 := by
    have : (0 : K) < (2 : K) ^ 128 := by positivity
    intro h'
    linarith
  simp [toFloat, h, hp, hn]

theorem expo32_intCast {m : Int} (h0 : m ≠ 0) (h1 : m.natAbs < 2 ^ 24) :
    expo32 ((m : K)) = (Nat.log 2 m.natAbs : Int) ∧ Nat.log 2 m.natAbs ≤ 23 := by
  have habs : |((m : K))| = (m.natAbs : K) := by
    rw [Nat.cast_natAbs, Int.cast_abs]
  have hl : Nat.log 2 m.natAbs < 24 :=
    Nat.log_lt_of_lt_pow (Int.natAbs_ne_zero.mpr h0) h1
  refine ⟨?_, by omega⟩
  unfold expo32
  rw [habs, Int.log_natCast]
  omega

theorem toFloat_int (m : Int) (h1 : m.natAbs < 2 ^ 24) : toFloat ((m : K)) = .fin (m : K) := by
  rcases eq_or_ne m 0 with h0 | h0
  · subst h0
    simpa using toFloat_zero (K := K)
  · obtain ⟨he, hl⟩ := expo32_intCast (K := K) h0 h1
    have hq : (2 : K) ^ (expo32 ((m : K)) - 23) = ((2 : K) ^ (23 - Nat.log 2 m.natAbs))⁻¹ := by
      rw [he, ← zpow_natCast, ← zpow_neg]
      congr 1
      omega
    have hdiv : ((m : K)) / ((2 : K) ^ (23 - Nat.log 2 m.natAbs))⁻¹
        = (((m * 2 ^ (23 - Nat.log 2 m.natAbs) : Int)) : K) := by
      rw [div_inv_eq_mul]
      push_cast
      ring
    have hval : (roundEven (((m : K)) / (2 : K) ^ (expo32 ((m : K)) - 23)) : K)
        * (2 : K) ^ (expo32 ((m : K)) - 23) = (m : K) := by
      rw [hq, hdiv, roundEven_intCast]
      push_cast
      have h2 : ((2 : K) ^ (23 - Nat.log 2 m.natAbs)) ≠ 0 := by positivity
      field_simp
    have habs : |((m : K))| < (2 : K) ^ 128 := by
      have h3 : |((m : K))| = (m.natAbs : K) := by
        rw [Nat.cast_natAbs, Int.cast_abs]
      rw [h3]
      have : (m.natAbs : K) < ((2 ^ 24 : Nat) : K) := by exact_mod_cast h1
      refine this.trans ?_
      norm_num
    obtain ⟨hlo, hhi⟩ := abs_lt.mp habs
    unfold toFloat
    rw [hval, if_neg (not_le.mpr hhi), if_neg (not_le.mpr hlo)]

theorem toFloat_underflow {x : K} (h0 : 0 ≤ x) (h1 : x < (2 : K) ^ (-150 : Int)) :
    toFloat x = .fin 0 := by
  rcases h0.lt_or_eq with hpos | hzero
  · have hlog : Int.log 2 |x| < -150 := by
      rw [abs_of_pos hpos]
      exact (Int.lt_zpow_iff_log_lt (by norm_num) hpos).mp (by exact_mod_cast h1)
    have he : expo32 x = -126 := by
      unfold expo32
      omega
    have hq : x / (2 : K) ^ (expo32 x - 23) < 1 / 2 := by
      rw [he, div_lt_iff₀ (by positivity)]
      calc x < (2 : K) ^ (-150 : Int) := h1
        _ = 1 / 2 * (2 : K) ^ (-126 - 23 : Int) := by
          rw [show (-150 : Int) = -1 + (-126 - 23) by norm_num, zpow_add₀ (by norm_num)]
          norm_num
    have hr := roundEven_of_lt_half (div_nonneg h0 (ulp_pos x).le) hq
    have hp : ¬ (2 : K) ^ 128 ≤ 0 := not_le.mpr (by positivity)
    have hn : ¬ (0 : K) ≤ -(2 : K) ^ 128 := by
      have : (0 : K) < (2 : K) ^ 128 := by positivity
      intro h'
      linarith
    simp [toFloat, hr, hp, hn]
  · subst hzero
    exact toFloat_zero

theorem toFloat_pos {x : K} (hx : (2 : K) ^ (-149 : Int) ≤ x) :
    toFloat x = .pinf ∨ ∃ y, 0 < y ∧ toFloat x = .fin y := by
  have hpos : 0 < x := lt_of_lt_of_le (by positivity) hx
  have hq := ulp_pos x
  have hge : 1 ≤ x / (2 : K) ^ (expo32 x - 23) := by
    rw [le_div_iff₀ hq, one_mul]
    unfold expo32
    rcases le_total (Int.log 2 |x|) (-126) with h | h
    · rw [max_eq_right h]
      exact le_trans (by norm_num) hx
    · rw [max_eq_left h]
      have h1 : (2 : K) ^ Int.log 2 |x| ≤ x := by
        rw [abs_of_pos hpos]
        exact_mod_cast Int.zpow_log_le_self (by norm_num) hpos
      refine le_trans ?_ h1
      exact zpow_le_zpow_right₀ (by norm_num) (by omega)
  have hr : (1 : K) ≤ (roundEven (x / (2 : K) ^ (expo32 x - 23)) : K) := by
    exact_mod_cast roundEven_pos hge
  have hy : 0 < (roundEven (x / (2 : K) ^ (expo32 x - 23)) : K) * (2 : K) ^ (expo32 x - 23) :=
    mul_pos (by linarith) hq
  unfold toFloat
  split_ifs with h1 h2
  · exact Or.inl rfl
  · have : (0 : K) < (2 : K) ^ 128 := by positivity
    linarith
  · exact Or.inr ⟨_, hy, rfl⟩

theorem roundEven_le {z : K} {N : Int} (h : z ≤ (N : K)) : roundEven z ≤ N := by
  have h1 : ⌊z⌋ ≤ N := by
    have := Int.floor_mono h
    simpa using this
  rcases h1.lt_or_eq with h2 | h2
  · unfold roundEven
    split_ifs <;> omega
  · have hz : z = (N : K) := le_antisymm h (by rw [← h2]; exact Int.floor_le z)
    rw [hz]
    exact (roundEven_intCast N).le

theorem le_roundEven {z : K} {N : Int} (h : (N : K) ≤ z) : N ≤ roundEven z := by
  have h1 : N ≤ ⌊z⌋ := Int.le_floor.mpr h
  unfold roundEven
  split_ifs <;> omega

theorem ulp_bracket {x : K} (hx : 0 < x) (M : Nat) (k : Int) (hk : -149 ≤ k)
    (hM : M ≤ 2 ^ 24) :
    ∃ N : Int,
      ((M : K) * (2 : K) ^ k ≤ x →
        (M : K) * (2 : K) ^ k ≤ (N : K) * (2 : K) ^ (expo32 x - 23) ∧
        (N : K) * (2 : K) ^ (expo32 x - 23) ≤ x) ∧
      (x ≤ (M : K) * (2 : K) ^ k →
        x ≤ (N : K) * (2 : K) ^ (expo32 x - 23) ∧
        (N : K) * (2 : K) ^ (expo32 x - 23) ≤ (M : K) * (2 : K) ^ k) := by
  rcases le_or_lt (expo32 x - 23) k with h | h
  · obtain ⟨d, hd⟩ := Int.eq_ofNat_of_zero_le (sub_nonneg.mpr h)
    have hm : (M : K) * (2 : K) ^ k
        = (((M * 2 ^ d : Nat) : Int) : K) * (2 : K) ^ (expo32 x - 23) := by
      have hk2 : k = (d : Int) + (expo32 x - 23) := by omega
      rw [hk2, zpow_add₀ (by norm_num), zpow_natCast]
      push_cast
      ring
    refine ⟨((M * 2 ^ d : Nat) : Int), fun h1 => ⟨hm.le, ?_⟩, fun h1 => ⟨?_, hm.ge⟩⟩
    · rw [← hm]
      exact h1
    · rw [← hm]
      exact h1
  · have he : expo32 x = Int.log 2 |x| := by
      unfold expo32 at h ⊢
      omega
    have h2 : (2 : K) ^ (expo32 x) ≤ x := by
      rw [he, abs_of_pos hx]
      exact_mod_cast Int.zpow_log_le_self (by norm_num) hx
    have h3 : (((2 ^ 23 : Int)) : K) * (2 : K) ^ (expo32 x - 23) = (2 : K) ^ (expo32 x) := by
      rw [zpow_sub₀ (by norm_num)]
      norm_num
      ring
    have h4 : (M : K) * (2 : K) ^ k ≤ (2 : K) ^ (expo32 x) := by
      have h5 : (M : K) ≤ (2 : K) ^ (24 : Int) := by
        have : (M : K) ≤ ((2 ^ 24 : Nat) : K) := by exact_mod_cast hM
        refine this.trans ?_
        norm_num
      calc (M : K) * (2 : K) ^ k ≤ (2 : K) ^ (24 : Int) * (2 : K) ^ k :=
            mul_le_mul_of_nonneg_right h5 (by positivity)
        _ = (2 : K) ^ (24 + k) := by rw [zpow_add₀ (by norm_num)]
        _ ≤ (2 : K) ^ (expo32 x) := zpow_le_zpow_right₀ (by norm_num) (by omega)
    refine ⟨2 ^ 23, fun h1 => ⟨?_, ?_⟩, fun h1 => ⟨?_, ?_⟩⟩
    · rw [h3]
      exact h4
    · rw [h3]
      exact h2
    · rw [h3]
      exact h1.trans h4
    · rw [h3]
      exact h2.trans h1

theorem toFloat_ge_of_ge {x : K} (M : Nat) (k : Int) (hk : -149 ≤ k) (hM : M ≤ 2 ^ 24)
    (h : (M : K) * (2 : K) ^ k ≤ x) :
    toFloat x = .pinf ∨ ∃ v, (M : K) * (2 : K) ^ k ≤ v ∧ toFloat x = .fin v := by
  have hm0 : (0 : K) ≤ (M : K) * (2 : K) ^ k := by positivity
  rcases (hm0.trans h).lt_or_eq with hx | hx
  · obtain ⟨N, hN, _⟩ := ulp_bracket hx M k hk hM
    obtain ⟨h1, h2⟩ := hN h
    have hq := ulp_pos x
    have h3 : N ≤ roundEven (x / (2 : K) ^ (expo32 x - 23)) :=
      le_roundEven (by rw [le_div_iff₀ hq]; exact h2)
    have h4 : (N : K) * (2 : K) ^ (expo32 x - 23)
        ≤ (roundEven (x / (2 : K) ^ (expo32 x - 23)) : K) * (2 : K) ^ (expo32 x - 23) :=
      mul_le_mul_of_nonneg_right (by exact_mod_cast h3) hq.le
    unfold toFloat
    split_ifs with h5 h6
    · exact Or.inl rfl
    · have : (0 : K) < (2 : K) ^ 128 := by positivity
      linarith
    · exact Or.inr ⟨_, h1.trans h4, rfl⟩
  · subst hx
    exact Or.inr ⟨0, h, toFloat_zero⟩

theorem toFloat_le_of_le {x : K} (hx : 0 ≤ x) (M : Nat) (k : Int) (hk : -149 ≤ k)
    (hM : M ≤ 2 ^ 24) (hfin : (M : K) * (2 : K) ^ k < (2 : K) ^ 128)
    (h : x ≤ (M : K) * (2 : K) ^ k) :
    ∃ v, 0 ≤ v ∧ v ≤ (M : K) * (2 : K) ^ k ∧ toFloat x = .fin v := by
  rcases hx.lt_or_eq with hx | hx
  · obtain ⟨N, _, hN⟩ := ulp_bracket hx M k hk hM
    obtain ⟨h1, h2⟩ := hN h
    have hq := ulp_pos x
    have h3 : roundEven (x / (2 : K) ^ (expo32 x - 23)) ≤ N :=
      roundEven_le (by rw [div_le_iff₀ hq]; exact h1)
    have h4 : (roundEven (x / (2 : K) ^ (expo32 x - 23)) : K) * (2 : K) ^ (expo32 x - 23)
        ≤ (N : K) * (2 : K) ^ (expo32 x - 23) :=
      mul_le_mul_of_nonneg_right (by exact_mod_cast h3) hq.le
    have h0 : (0 : K) ≤ (roundEven (x / (2 : K) ^ (expo32 x - 23)) : K)
        * (2 : K) ^ (expo32 x - 23) :=
      mul_nonneg (by exact_mod_cast roundEven_nonneg (div_nonneg hx.le hq.le)) hq.le
    unfold toFloat
    split_ifs with h5 h6
    · linarith
    · have : (0 : K) < (2 : K) ^ 128 := by positivity
      linarith
    · exact ⟨_, h0, h4.trans h2, rfl⟩
  · subst hx
    exact ⟨0, le_refl _, h, toFloat_zero⟩

end Rounding

/-! ## Basic facts about the embedding -/

theorem readCell_ok_iff {rows cols : Int} {state : Grid} {a b v : Int} :
    readCell rows cols state a b = .ok v ↔ inGrid rows cols a b ∧ state a b = v := by
  unfold readCell
  by_cases h : inGrid rows cols a b <;> simp [h]

theorem readCell_of_inGrid {rows cols : Int} {state : Grid} {a b : Int}
    (h : inGrid rows cols a b) : readCell rows cols state a b = .ok (state a b) := by
  simp [readCell, h]

theorem flipCell_of_inGrid {rows cols : Int} {state : Grid} {x y : Int}
    (h : inGrid rows cols x y) : flipCell rows cols state x y = .ok (flipped state x y) := by
  simp [flipCell, writeCell, readCell, h, flipped, bind, Except.bind]

theorem neighbourSum_ok {rows cols : Int} {state : Grid} {x y n : Int}
    (h : neighbourSum rows cols state x y = .ok n) :
    inGrid rows cols (xL cols x) y ∧ inGrid rows cols (xR cols x) y ∧
    inGrid rows cols x (yT rows y) ∧ inGrid rows cols x (yB rows y) ∧
    n = state (xL cols x) y + state (xR cols x) y + state x (yT rows y) + state x (yB rows y) := by
  unfold neighbourSum readCell at h
  by_cases h1 : inGrid rows cols (xL cols x) y <;>
  by_cases h2 : inGrid rows cols (xR cols x) y <;>
  by_cases h3 : inGrid rows cols x (yT rows y) <;>
  by_cases h4 : inGrid rows cols x (yB rows y) <;>
  simp [h1, h2, h3, h4, bind, Except.bind, pure, Except.pure] at h
  exact ⟨h1, h2, h3, h4, h.symm⟩

theorem initialEnergy_ok {p : Params K} {rows cols : Int} {state : Grid} {x y : Int} {e : K}
    (h : initialEnergy p rows cols state x y = .ok e) :
    inGrid rows cols x y ∧
    ∃ n, neighbourSum rows cols state x y = .ok n ∧
      e = -p.j * (state x y : K) * (n : K) - p.h * (state x y : K) := by
  unfold initialEnergy at h
  by_cases h0 : inGrid rows cols x y
  · cases hn : neighbourSum rows cols state x y with
    | error f => simp [readCell, h0, hn, bind, Except.bind] at h
    | ok n =>
      simp [readCell, h0, hn, bind, Except.bind, pure, Except.pure] at h
      exact ⟨h0, n, rfl, by rw [← h]; ring⟩
  · simp [readCell, h0, bind, Except.bind] at h

theorem transitionState_eq [FloorRing K] (lib : Libc K) (p : Params K) (rand : Nat → Nat) (pos : Nat)
    (rows cols : Int) (state : Grid) (x y : Int) (e : K)
    (hsel : selectCell rand pos rows cols = .ok (x, y))
    (hE : initialEnergy p rows cols state x y = .ok e) :
    transitionState lib p rand pos rows cols state =
      if -e ≥ e then
        if acceptTest lib (rand (pos + 2)) (acceptProbF lib p.t (energyGap e)) = true then
          .ok ⟨true, flipped state x y, pos + 3⟩
        else .ok ⟨false, state, pos + 3⟩
      else .ok ⟨true, flipped state x y, pos + 2⟩ := by
  have hin := (initialEnergy_ok hE).1
  unfold transitionState
  simp only [hsel, hE, bind, Except.bind, flipCell_of_inGrid hin, pure, Except.pure]

theorem fdiv_neg_one_zero [FloorRing K] : fdiv (-1 : K) 0 = .ninf := by
  have h : ¬ (0 : K) < -1 := by norm_num
  simp [fdiv, h]

theorem acceptProb_zero_of_pos [FloorRing K] (lib : Libc K) {d : K} (hd : 0 < d) :
    acceptProb lib 0 d = .fin 0 := by
  simp [acceptProb, fdiv_neg_one_zero, fmul, fmulC, fexp, hd, hd.ne']

theorem acceptProb_zero_zero [FloorRing K] (lib : Libc K) : acceptProb lib 0 0 = .nan := by
  simp [acceptProb, fdiv_neg_one_zero, fmul, fmulC, fexp]

theorem acceptProbF_fin [FloorRing K] (lib : Libc K) (t d : K) :
    acceptProbF lib t (.fin d) = acceptProb lib t d := rfl

theorem selectCell_zero : selectCell (fun _ => 0) 0 2 2 = .ok (0, 0) := by
  simp [selectCell, cRem, bind, Except.bind, pure, Except.pure]

theorem cRem_ok {r : Nat} {n : Int} (hn : 0 < n) :
    cRem (r : Int) n = .ok ((r : Int) % n) ∧ 0 ≤ (r : Int) % n ∧ (r : Int) % n < n := by
  refine ⟨?_, Int.emod_nonneg _ hn.ne', Int.emod_lt_of_pos _ hn⟩
  simp only [cRem, hn.ne', if_false]
  rw [Int.tmod_eq_emod (Int.ofNat_nonneg r) hn.le]

theorem selectCell_ok (rand : Nat → Nat) (pos : Nat) {rows cols : Int}
    (hr : 0 < rows) (hc : 0 < cols) :
    selectCell rand pos rows cols
      = .ok ((rand pos : Int) % cols, (rand (pos + 1) : Int) % rows) := by
  simp only [selectCell, (cRem_ok hc).1, (cRem_ok hr).1, bind, Except.bind, pure, Except.pure]

theorem initialEnergy_of_inGrid (p : Params K) {rows cols : Int} (state : Grid) {x y : Int}
    (h0 : inGrid rows cols x y) (h1 : inGrid rows cols (xL cols x) y)
    (h2 : inGrid rows cols (xR cols x) y) (h3 : inGrid rows cols x (yT rows y))
    (h4 : inGrid rows cols x (yB rows y)) :
    initialEnergy p rows cols state x y
      = .ok (-p.j * (state x y : K) *
          ((state (xL cols x) y + state (xR cols x) y + state x (yT rows y)
            + state x (yB rows y) : Int) : K) - p.h * (state x y : K)) := by
  simp only [initialEnergy, neighbourSum, readCell, h0, h1, h2, h3, h4, if_true, bind,
    Except.bind, pure, Except.pure]

theorem transitionState_square_ok [FloorRing K] (lib : Libc K) (p : Params K) (rand : Nat → Nat) (pos : Nat)
    {n : Int} (hn : 0 < n) (state : Grid) :
    ∃ o, transitionState lib p rand pos n n state = .ok o := by
  have hsel := selectCell_ok rand pos hn hn
  obtain ⟨_, hx0, hx1⟩ := cRem_ok (r := rand pos) hn
  obtain ⟨_, hy0, hy1⟩ := cRem_ok (r := rand (pos + 1)) hn
  have hE := @initialEnergy_of_inGrid K _ p n n state
    ((rand pos : Int) % n) ((rand (pos + 1) : Int) % n)
    ⟨hx0, hx1, hy0, hy1⟩
    (by unfold xL inGrid; split_ifs <;> omega)
    (by unfold xR inGrid; split_ifs <;> omega)
    (by unfold yT inGrid; split_ifs <;> omega)
    (by unfold yB inGrid; split_ifs <;> omega)
  rw [transitionState_eq lib p rand pos n n state _ _ _ hsel hE]
  split_ifs <;> exact ⟨_, rfl⟩

/-! ## Facts about the acceptance path -/

theorem toFloat_ofInt_eq [FloorRing K] (x : K) (m : Int) (hx : x = (m : K))
    (hm : m.natAbs < 2 ^ 24) : toFloat x = .fin x := by
  subst hx
  exact toFloat_int m hm

theorem fltC_nan_right (a : CFloat K) : fltC a (.nan : CFloat K) = false := by
  cases a <;> rfl

theorem fmulC_nan_right [FloorRing K] (a : CFloat K) : fmulC a .nan = .nan := by
  cases a <;> rfl

theorem acceptTest_nan [FloorRing K] (lib : Libc K) (r : Nat) :
    acceptTest lib r .nan = false := by
  simp [acceptTest, fmulC_nan_right, fltC_nan_right]

theorem acceptTest_zero [FloorRing K] (lib : Libc K) (r : Nat) :
    acceptTest lib r (.fin 0) = false := by
  unfold acceptTest
  rcases toFloat_nonneg (Nat.cast_nonneg lib.RAND_MAX : (0 : K) ≤ (lib.RAND_MAX : K))
    with hR | ⟨yR, _, hR⟩
  · rw [hR]
    simp [fmulC, fltC_nan_right]
  · rw [hR]
    simp only [fmulC, mul_zero, toFloat_zero]
    rcases toFloat_nonneg (Nat.cast_nonneg r : (0 : K) ≤ (r : K)) with hr | ⟨y, hy, hr⟩
    · rw [hr]
      rfl
    · rw [hr]
      simp [fltC, not_lt.mpr hy]

theorem energyGap_nonneg [FloorRing K] {e : K} (he : e ≤ 0) :
    energyGap e = .pinf ∨ ∃ g, 0 ≤ g ∧ energyGap e = .fin g := by
  unfold energyGap
  rcases toFloat_nonpos he with h | ⟨y, hy, h⟩
  · rw [h]
    exact Or.inl rfl
  · rw [h]
    simp only [fneg, fsubC]
    exact toFloat_nonneg (by linarith)

theorem acceptProbF_zeroTemp [FloorRing K] (lib : Libc K) {e : K} (he : e ≤ 0) :
    acceptProbF lib 0 (energyGap e) = .fin 0 ∨ acceptProbF lib 0 (energyGap e) = .nan := by
  unfold acceptProbF
  rw [fdiv_neg_one_zero]
  rcases energyGap_nonneg he with h | ⟨g, hg, h⟩
  · rw [h]
    exact Or.inl rfl
  · rw [h]
    rcases hg.lt_or_eq with h1 | h1
    · left
      simp [fmulC, fexp, h1, h1.ne']
    · right
      subst h1
      simp [fmulC, fexp]

theorem acceptTest_zeroTemp [FloorRing K] (lib : Libc K) (r : Nat) {e : K} (he : e ≤ 0) :
    acceptTest lib r (acceptProbF lib 0 (energyGap e)) = false := by
  rcases acceptProbF_zeroTemp lib he with h | h <;> rw [h]
  · exact acceptTest_zero lib r
  · exact acceptTest_nan lib r

theorem energyGap_int [FloorRing K] (m : Int) (hm : (2 * m).natAbs < 2 ^ 24) :
    energyGap ((m : K)) = .fin (((-2 * m : Int)) : K) := by
  have h1 : toFloat ((m : K)) = .fin (m : K) := toFloat_int m (by omega)
  have h2 : -(m : K) - (m : K) = (((-2 * m : Int)) : K) := by
    push_cast
    ring
  unfold energyGap
  rw [h1]
  simp only [fneg, fsubC]
  rw [h2]
  exact toFloat_int _ (by omega)

theorem toFloat_natCast [FloorRing K] (r : Nat) (h : r < 2 ^ 24) :
    toFloat ((r : K)) = .fin (r : K) := by
  have h1 := toFloat_int (K := K) (r : Int) (by simpa using h)
  simpa using h1

theorem acceptTest_fin [FloorRing K] (lib : Libc K) (r : Nat) (P : K)
    (hR : lib.RAND_MAX < 2 ^ 24) (hr : r ≤ lib.RAND_MAX) :
    acceptTest lib r (.fin P) = fltC (.fin (r : K)) (toFloat ((lib.RAND_MAX : K) * P)) := by
  unfold acceptTest
  rw [toFloat_natCast r (lt_of_le_of_lt hr hR), toFloat_natCast _ hR]
  rfl

theorem acceptTest_lt [FloorRing K] (lib : Libc K) (r : Nat) (P : K)
    (hR : lib.RAND_MAX < 2 ^ 24) (hr : r ≤ lib.RAND_MAX)
    (h : acceptTest lib r (.fin P) = true) : (r : K) < (lib.RAND_MAX : K) * P := by
  rw [acceptTest_fin lib r P hR hr] at h
  by_contra hlt
  have hle : (lib.RAND_MAX : K) * P ≤ (r : K) := not_lt.mp hlt
  have hr0 : (0 : K) ≤ (r : K) := Nat.cast_nonneg r
  rcases le_or_lt 0 ((lib.RAND_MAX : K) * P) with h0 | h0
  · have hfin : (r : K) * (2 : K) ^ (0 : Int) < (2 : K) ^ 128 := by
      have h1 : (r : K) < ((2 ^ 24 : Nat) : K) := by exact_mod_cast lt_of_le_of_lt hr hR
      have h2 : (((2 ^ 24 : Nat)) : K) ≤ (2 : K) ^ 128 := by norm_num
      simpa using h1.trans_le h2
    obtain ⟨v, _, hv, hf⟩ := toFloat_le_of_le h0 r 0 (by norm_num)
      (le_of_lt (lt_of_le_of_lt hr hR)) hfin (by simpa using hle)
    rw [hf] at h
    simp only [fltC, decide_eq_true_eq] at h
    have : v ≤ (r : K) := by simpa using hv
    exact absurd h (not_lt.mpr this)
  · rcases toFloat_nonpos h0.le with hf | ⟨v, hv, hf⟩
    · rw [hf] at h
      simp [fltC] at h
    · rw [hf] at h
      simp only [fltC, decide_eq_true_eq] at h
      linarith

theorem acceptTest_of_le [FloorRing K] (lib : Libc K) (r : Nat) (P : K)
    (hR : lib.RAND_MAX < 2 ^ 24) (hr : r ≤ lib.RAND_MAX)
    (h : (r : K) + 1 ≤ (lib.RAND_MAX : K) * P) : acceptTest lib r (.fin P) = true := by
  rw [acceptTest_fin lib r P hR hr]
  have h1 : ((r + 1 : Nat) : K) * (2 : K) ^ (0 : Int) ≤ (lib.RAND_MAX : K) * P := by
    push_cast
    simpa using h
  rcases toFloat_ge_of_ge (r + 1) 0 (by norm_num) (by omega) h1 with hf | ⟨v, hv, hf⟩
  · rw [hf]
    rfl
  · rw [hf]
    simp only [fltC, decide_eq_true_eq]
    have h2 : (r : K) + 1 ≤ v := by
      have := hv
      push_cast at this
      simpa using this
    linarith

theorem acceptTest_zero_draw [FloorRing K] (lib : Libc K) (hR0 : 0 < lib.RAND_MAX)
    (hR : lib.RAND_MAX < 2 ^ 24) (prob : CFloat K)
    (h : prob = .pinf ∨ ∃ v, (2 : K) ^ (-149 : Int) ≤ v ∧ prob = .fin v) :
    acceptTest lib 0 prob = true := by
  have hR1 : (1 : K) ≤ (lib.RAND_MAX : K) := by exact_mod_cast hR0
  rcases h with h | ⟨v, hv, h⟩
  · subst h
    unfold acceptTest
    rw [toFloat_natCast 0 (by norm_num), toFloat_natCast _ hR]
    have h0 : (lib.RAND_MAX : K) ≠ 0 := by linarith
    have h1 : (0 : K) < (lib.RAND_MAX : K) := by linarith
    simp [fmulC, fltC, h0, h1]
  · subst h
    rw [acceptTest_fin lib 0 v hR (Nat.zero_le _)]
    have hv0 : (0 : K) < v := lt_of_lt_of_le (by positivity) hv
    have h2 : (2 : K) ^ (-149 : Int) ≤ (lib.RAND_MAX : K) * v := by
      calc (2 : K) ^ (-149 : Int) ≤ v := hv
        _ = 1 * v := (one_mul v).symm
        _ ≤ (lib.RAND_MAX : K) * v := mul_le_mul_of_nonneg_right hR1 hv0.le
    rcases toFloat_pos h2 with hf | ⟨w, hw, hf⟩
    · rw [hf]
      simp [fltC]
    · rw [hf]
      simpa [fltC] using hw

theorem toFloat_ge_min [FloorRing K] {x : K} (hx : (2 : K) ^ (-149 : Int) ≤ x) :
    toFloat x = .pinf ∨ ∃ v, (2 : K) ^ (-149 : Int) ≤ v ∧ toFloat x = .fin v := by
  have h1 : ((1 : Nat) : K) * (2 : K) ^ (-149 : Int) ≤ x := by simpa using hx
  rcases toFloat_ge_of_ge 1 (-149) (by norm_num) (by norm_num) h1 with hf | ⟨v, hv, hf⟩
  · exact Or.inl hf
  · exact Or.inr ⟨v, by simpa using hv, hf⟩

theorem fdiv_neg_one_fifth [FloorRing K] : fdiv (-1 : K) (1 / 5) = .fin (-5) := by
  have h : toFloat (-5 : K) = .fin (-5) := toFloat_ofInt_eq _ (-5) (by norm_num) (by decide)
  have h5 : (1 / 5 : K) ≠ 0 := by norm_num
  have hq : (-1 : K) / (1 / 5) = -5 := by norm_num
  rw [fdiv, if_neg h5, hq, h]

theorem fdiv_neg_one_sixteenth [FloorRing K] : fdiv (-1 : K) (1 / 16) = .fin (-16) := by
  have h : toFloat (-16 : K) = .fin (-16) := toFloat_ofInt_eq _ (-16) (by norm_num) (by decide)
  have h5 : (1 / 16 : K) ≠ 0 := by norm_num
  have hq : (-1 : K) / (1 / 16) = -16 := by norm_num
  rw [fdiv, if_neg h5, hq, h]

theorem energyGap_zero [FloorRing K] : energyGap (0 : K) = .fin 0 := by
  simpa using energyGap_int (K := K) 0 (by decide)

theorem energyGap_neg_four [FloorRing K] : energyGap (-4 : K) = .fin 8 := by
  have h := energyGap_int (K := K) (-4) (by decide)
  norm_num at h
  exact h

theorem exp_neg_128_lt : Real.exp (-128) < (2 : ℝ) ^ (-150 : Int) := by
  have h1 : (27 / 10 : ℝ) < Real.exp 1 := lt_trans (by norm_num) Real.exp_one_gt_d9
  have h2 : Real.exp 128 = Real.exp 1 ^ 128 := by
    rw [← Real.exp_nat_mul]
    norm_num
  have h3 : (2 : ℝ) ^ 150 < Real.exp 128 := by
    rw [h2]
    calc (2 : ℝ) ^ 150 < (27 / 10 : ℝ) ^ 128 := by norm_num
      _ < Real.exp 1 ^ 128 := pow_lt_pow_left₀ h1 (by norm_num) (by norm_num)
  rw [Real.exp_neg, zpow_neg]
  exact inv_strictAnti₀ (by positivity) (by exact_mod_cast h3)

theorem le_exp_neg_40 : (2 : ℝ) ^ (-149 : Int) ≤ Real.exp (-40) := by
  have h1 : Real.exp 1 < 3 := lt_trans Real.exp_one_lt_d9 (by norm_num)
  have h2 : Real.exp 40 = Real.exp 1 ^ 40 := by
    rw [← Real.exp_nat_mul]
    norm_num
  have h3 : Real.exp 40 ≤ (2 : ℝ) ^ 149 := by
    rw [h2]
    calc Real.exp 1 ^ 40 ≤ (3 : ℝ) ^ 40 :=
          pow_le_pow_left₀ (Real.exp_pos 1).le h1.le 40
      _ ≤ (2 : ℝ) ^ 149 := by norm_num
  rw [Real.exp_neg, zpow_neg]
  exact inv_anti₀ (Real.exp_pos 40) (by exact_mod_cast h3)

theorem acceptProbF_chilled (e : ℝ) (he : e = -4) :
    acceptProbF (K := ℝ) ⟨32767, Real.exp⟩ (1 / 16) (energyGap e) = .fin 0 := by
  subst he
  have h128 : toFloat (-128 : ℝ) = .fin (-128) :=
    toFloat_ofInt_eq _ (-128) (by norm_num) (by decide)
  have hm : (-16 : ℝ) * 8 = -128 := by norm_num
  rw [acceptProbF, energyGap_neg_four, fdiv_neg_one_sixteenth]
  simp only [fmulC, fexp, hm, h128]
  exact toFloat_underflow (Real.exp_pos _).le exp_neg_128_lt

theorem acceptTest_initial_upGrid (e : ℝ) (he : e = -4) :
    acceptTest (K := ℝ) ⟨32767, Real.exp⟩ 0
      (acceptProbF ⟨32767, Real.exp⟩ (1 / 5) (energyGap e)) = true := by
  subst he
  have h40 : toFloat (-40 : ℝ) = .fin (-40) :=
    toFloat_ofInt_eq _ (-40) (by norm_num) (by decide)
  have hm : (-5 : ℝ) * 8 = -40 := by norm_num
  apply acceptTest_zero_draw _ (by norm_num) (by norm_num)
  rw [acceptProbF, energyGap_neg_four, fdiv_neg_one_fifth]
  simp only [fmulC, fexp, hm, h40]
  exact toFloat_ge_min le_exp_neg_40

/-! ## C1: acceptance when the energy does not increase -/

/-- C1 (failing input): with the initial parameters (`h = 0`, `t = 0.2`, `j = 1`)
on a 2 x 2 grid whose chosen cell `[0][0]` has neighbour sum `0`, the energies
are `E_initial = E_final = 0`, and when the acceptance draw is `RAND_MAX`
`transitionState` returns false and leaves the array unchanged: the equality
case takes the probabilistic branch, where `prob = expf(0) = 1` and the test
`rand() < RAND_MAX * prob` fails. -/
theorem transitionState_equal_energy_rejected :
    selectCell lastDraw 0 2 2 = .ok (0, 0) ∧
    initialEnergy (K := ℝ) initialParams 2 2 balancedGrid 0 0 = .ok 0 ∧
    transitionState (K := ℝ) ⟨32767, Real.exp⟩ initialParams lastDraw 0 2 2 balancedGrid
      = .ok ⟨false, balancedGrid, 3⟩ := by
  have hsel : selectCell lastDraw 0 2 2 = .ok (0, 0) := by
    simp [selectCell, cRem, lastDraw, bind, Except.bind, pure, Except.pure]
  have hE : initialEnergy (K := ℝ) initialParams 2 2 balancedGrid 0 0 = .ok 0 := by
    simp [initialEnergy, neighbourSum, readCell, inGrid, xL, xR, yT, yB, balancedGrid,
      initialParams, bind, Except.bind, pure, Except.pure]
  refine ⟨hsel, hE, ?_⟩
  rw [transitionState_eq _ _ _ _ _ _ _ 0 0 0 hsel hE]
  have h1 : toFloat (1 : ℝ) = .fin 1 := toFloat_ofInt_eq _ 1 (by norm_num) (by decide)
  have hprob : acceptProbF (K := ℝ) ⟨32767, Real.exp⟩ (1 / 5) (energyGap 0) = .fin 1 := by
    rw [acceptProbF, energyGap_zero, fdiv_neg_one_fifth]
    simp [fmulC, fexp, toFloat_zero, h1]
  have htest : acceptTest (K := ℝ) ⟨32767, Real.exp⟩ (lastDraw 2) (.fin 1) = false := by
    have hd : lastDraw 2 = 32767 := rfl
    rw [hd, acceptTest_fin _ _ _ (by norm_num) (le_refl _)]
    have h2 : toFloat (32767 : ℝ) = .fin 32767 := by
      simpa using toFloat_natCast (K := ℝ) 32767 (by norm_num)
    simp [h2, fltC]
  have ht : (initialParams : Params ℝ).t = 1 / 5 := rfl
  rw [ht, hprob, htest]
  simp

/-! ## C2, C3: subscripts on a grid that is not square -/

/-- C2 (failing input): on `char state[1][2]` with `rand()` results `1`, `0` the
chosen position is `x = 1`, `y = 0`; the subscript pairs used are `[1][0]`,
`[0][0]`, `[0][0]`, `[1][0]`, `[1][0]`, the first subscript `1` is outside
`[0, rows)`, and the call leaves the array bounds. -/
theorem transitionState_subscript_outside_grid :
    selectCell firstOne 0 1 2 = .ok (1, 0) ∧
    touched 1 2 1 0 = [(1, 0), (0, 0), (0, 0), (1, 0), (1, 0)] ∧
    ¬ inGrid 1 2 1 0 ∧
    transitionState (K := ℝ) ⟨32767, Real.exp⟩ initialParams firstOne 0 1 2 upGrid
      = .error .outOfBounds := by
  refine ⟨?_, ?_, ?_, ?_⟩
  · simp [selectCell, cRem, firstOne, bind, Except.bind, pure, Except.pure, Int.tmod]
  · simp [touched, xL, xR, yT, yB]
  · simp [inGrid]
  · simp [transitionState, selectCell, cRem, firstOne, initialEnergy, readCell, inGrid, bind,
      Except.bind, pure, Except.pure, Int.tmod]

/-- C3 (failing input): on a grid with 2 rows and 3 columns and the chosen cell
`(0, 0)` the cells the code sums are `[2][0]`, `[1][0]`, `[0][1]`, `[0][1]`:
`[2][0]` is outside the grid, the cell `(0, C-1) = [0][2]` is not among them,
and the neighbour sum is not defined. -/
theorem neighbourSum_wraps_on_wrong_axis :
    touched 2 3 0 0 = [(0, 0), (2, 0), (1, 0), (0, 1), (0, 1)] ∧
    ¬ inGrid 2 3 2 0 ∧
    (0, 2) ∉ touched 2 3 0 0 ∧
    neighbourSum 2 3 upGrid 0 0 = .error .outOfBounds := by
  refine ⟨?_, ?_, ?_, ?_⟩
  · simp [touched, xL, xR, yT, yB]
  · simp [inGrid]
  · simp [touched, xL, xR, yT, yB]
  · simp [neighbourSum, readCell, inGrid, xL, xR, yT, yB, bind, Except.bind]

/-! ## C4: the spin invariant -/

theorem toChar_spin (r : Nat) :
    toChar (2 * Int.tmod (r : Int) 2 - 1) = 1 ∨ toChar (2 * Int.tmod (r : Int) 2 - 1) = -1 := by
  have h : Int.tmod (r : Int) 2 = (r : Int) % 2 :=
    Int.tmod_eq_emod (Int.ofNat_nonneg r) (by norm_num)
  rw [h]
  unfold toChar
  omega

theorem toChar_neg_spin {s : Int} (h : s = 1 ∨ s = -1) : toChar (s * -1) = -s := by
  rcases h with h | h <;> subst h <;> rfl

theorem initRow_fold (rand : Nat → Nat) (i : Nat) (l : List Nat) (acc : Grid × Nat) :
    (∀ a b, (l.foldl (initCell rand i) acc).1 a b = acc.1 a b ∨
        (l.foldl (initCell rand i) acc).1 a b = 1 ∨
        (l.foldl (initCell rand i) acc).1 a b = -1) ∧
    (∀ j ∈ l, (l.foldl (initCell rand i) acc).1 i j = 1 ∨
        (l.foldl (initCell rand i) acc).1 i j = -1) := by
  induction l generalizing acc with
  | nil => simp
  | cons c l ih =>
    simp only [List.foldl_cons]
    obtain ⟨ih1, ih2⟩ := ih (initCell rand i acc c)
    have hset : ∀ a b, (initCell rand i acc c).1 a b = acc.1 a b ∨
        (initCell rand i acc c).1 a b = 1 ∨ (initCell rand i acc c).1 a b = -1 := by
      intro a b
      simp only [initCell, setCell]
      split_ifs
      · exact Or.inr (toChar_spin _)
      · exact Or.inl rfl
    have hhead : (initCell rand i acc c).1 i c = 1 ∨ (initCell rand i acc c).1 i c = -1 := by
      simp only [initCell, setCell, and_self, if_true]
      exact toChar_spin _
    refine ⟨?_, ?_⟩
    · intro a b
      rcases ih1 a b with h | h
      · rw [h]; exact hset a b
      · exact Or.inr h
    · intro j hj
      rcases List.mem_cons.mp hj with h | h
      · subst h
        rcases ih1 i j with h' | h'
        · rw [h']; exact hhead
        · exact h'
      · exact ih2 j h

theorem initState_fold (rand : Nat → Nat) (cols : Int) (l : List Nat) (acc : Grid × Nat) :
    (∀ a b, (l.foldl (initRow rand cols) acc).1 a b = acc.1 a b ∨
        (l.foldl (initRow rand cols) acc).1 a b = 1 ∨
        (l.foldl (initRow rand cols) acc).1 a b = -1) ∧
    (∀ i ∈ l, ∀ j : Nat, j < cols.toNat → (l.foldl (initRow rand cols) acc).1 i j = 1 ∨
        (l.foldl (initRow rand cols) acc).1 i j = -1) := by
  induction l generalizing acc with
  | nil => simp
  | cons c l ih =>
    simp only [List.foldl_cons]
    obtain ⟨ih1, ih2⟩ := ih (initRow rand cols acc c)
    obtain ⟨r1, r2⟩ := initRow_fold rand c (List.range cols.toNat) acc
    refine ⟨?_, ?_⟩
    · intro a b
      rcases ih1 a b with h | h
      · rw [h]; exact r1 a b
      · exact Or.inr h
    · intro i hi j hj
      rcases List.mem_cons.mp hi with h | h
      · subst h
        rcases ih1 i j with h' | h'
        · rw [h']; exact r2 j (List.mem_range.mpr hj)
        · exact h'
      · exact ih2 i h j hj

theorem initState_spinGrid (rand : Nat → Nat) (pos : Nat) (rows cols : Int) (state : Grid) :
    spinGrid rows cols (initState rand pos rows cols state).1 := by
  intro a b hab
  obtain ⟨ha0, ha1, hb0, hb1⟩ := hab
  have h := (initState_fold rand cols (List.range rows.toNat) (state, pos)).2 a.toNat
    (List.mem_range.mpr (by omega)) b.toNat (by omega)
  rw [Int.toNat_of_nonneg ha0, Int.toNat_of_nonneg hb0] at h
  exact h

theorem transitionState_ok [FloorRing K] {lib : Libc K} {p : Params K} {rand : Nat → Nat} {pos : Nat}
    {rows cols : Int} {state : Grid} {o : Outcome}
    (h : transitionState lib p rand pos rows cols state = .ok o) :
    ∃ x y e, selectCell rand pos rows cols = .ok (x, y) ∧
      initialEnergy p rows cols state x y = .ok e := by
  cases hsel : selectCell rand pos rows cols with
  | error f => simp [transitionState, hsel, bind, Except.bind] at h
  | ok c =>
    obtain ⟨x, y⟩ := c
    cases hE : initialEnergy p rows cols state x y with
    | error f => simp [transitionState, hsel, hE, bind, Except.bind] at h
    | ok e => exact ⟨x, y, e, rfl, hE⟩

theorem spinGrid_flipped {rows cols : Int} {state : Grid} {x y : Int}
    (hs : spinGrid rows cols state) (hin : inGrid rows cols x y) :
    spinGrid rows cols (flipped state x y) := by
  intro a b hab
  simp only [flipped, setCell]
  split_ifs
  · rw [toChar_neg_spin (hs x y hin)]
    rcases hs x y hin with h | h <;> rw [h] <;> simp
  · exact hs a b hab

/-- C4: the array filled by `initState` holds `-1` or `+1` in every cell, for
every random source; every call of `transitionState` that returns (with true or
with false) on an array with that property leaves an array with that property,
for all parameter values; and on a square grid with at least one row every call
returns. -/
theorem spin_invariant [FloorRing K] (lib : Libc K) (p : Params K) (rand : Nat → Nat) (pos : Nat)
    (rows cols : Int) (state : Grid) :
    spinGrid rows cols (initState rand pos rows cols state).1 ∧
    (∀ o, spinGrid rows cols state →
      transitionState lib p rand pos rows cols state = .ok o → spinGrid rows cols o.state) ∧
    (rows = cols → 0 < rows → ∃ o, transitionState lib p rand pos rows cols state = .ok o) := by
  refine ⟨initState_spinGrid rand pos rows cols state, ?_, ?_⟩
  · intro o hs h
    obtain ⟨x, y, e, hsel, hE⟩ := transitionState_ok h
    have hin := (initialEnergy_ok hE).1
    rw [transitionState_eq lib p rand pos rows cols state x y e hsel hE] at h
    split_ifs at h <;> cases h
    · exact spinGrid_flipped hs hin
    · exact hs
    · exact spinGrid_flipped hs hin
  · intro hrc hpos
    subst hrc
    exact transitionState_square_ok lib p rand pos hpos state

theorem spinGrid_downGrid : spinGrid 2 2 downGrid := by
  intro a b _
  simp only [downGrid]
  split_ifs <;> simp

theorem spinGrid_upGrid : spinGrid 2 2 upGrid := by
  intro a b _
  simp [upGrid]

theorem initialEnergy_downGrid (p : Params K) :
    initialEnergy p 2 2 downGrid 0 0 = .ok (-p.j * (-1 : Int) * (4 : Int) - p.h * (-1 : Int)) := by
  simp [initialEnergy, neighbourSum, readCell, inGrid, xL, xR, yT, yB, downGrid,
    bind, Except.bind, pure, Except.pure]

theorem initialEnergy_upGrid (p : Params K) :
    initialEnergy p 2 2 upGrid 0 0 = .ok (-p.j * (1 : Int) * (4 : Int) - p.h * (1 : Int)) := by
  simp [initialEnergy, neighbourSum, readCell, inGrid, xL, xR, yT, yB, upGrid,
    bind, Except.bind, pure, Except.pure]

theorem transitionState_downGrid [FloorRing K] (lib : Libc K) :
    transitionState lib initialParams (fun _ => 0) 0 2 2 downGrid
      = .ok ⟨true, flipped downGrid 0 0, 2⟩ := by
  rw [transitionState_eq lib _ _ _ _ _ _ 0 0 _ selectCell_zero (initialEnergy_downGrid _)]
  simp [initialParams]

/-- C4 (witness): the array filled by `initState` on a 2 x 2 grid is a spin
grid, and so is `downGrid` after the accepted step that flips `[0][0]`. -/
theorem spin_invariant_witness :
    spinGrid 2 2 (initState (fun _ => 0) 0 2 2 upGrid).1 ∧
    spinGrid 2 2 (flipped downGrid 0 0) :=
  ⟨(spin_invariant (K := ℝ) ⟨32767, Real.exp⟩ initialParams (fun _ => 0) 0 2 2 upGrid).1,
   (spin_invariant (K := ℝ) ⟨32767, Real.exp⟩ initialParams (fun _ => 0) 0 2 2 downGrid).2.1
      ⟨true, flipped downGrid 0 0, 2⟩ spinGrid_downGrid (transitionState_downGrid _)⟩


/-! ## C5: a step changes at most the chosen cell -/

theorem flipped_ne {state : Grid} {x y : Int} (hs : state x y = 1 ∨ state x y = -1) :
    flipped state x y ≠ state := by
  intro h
  have h1 := congrFun (congrFun h x) y
  simp only [flipped, setCell, and_self, if_true] at h1
  rw [toChar_neg_spin hs] at h1
  omega

/-- C5: on a spin grid, for the chosen cell `(x, y)` (whose energy the code can
read), `transitionState` returns; it returns true iff the resulting array
differs from the input array; when it returns true the chosen cell holds the
negated spin and every other cell is unchanged; when it returns false the array
is the input array. -/
theorem transitionState_single_cell_effect [FloorRing K] (lib : Libc K) (p : Params K)
    (rand : Nat → Nat) (pos : Nat) (rows cols : Int) (state : Grid) (x y : Int) (e : K)
    (hspin : spinGrid rows cols state)
    (hsel : selectCell rand pos rows cols = .ok (x, y))
    (hE : initialEnergy p rows cols state x y = .ok e) :
    ∃ o, transitionState lib p rand pos rows cols state = .ok o ∧
      (o.accepted = true ↔ o.state ≠ state) ∧
      (o.accepted = true → o.state x y = -state x y ∧ o.state x y ≠ state x y ∧
        ∀ a b, (a, b) ≠ (x, y) → o.state a b = state a b) ∧
      (o.accepted = false → o.state = state) := by
  have hin := (initialEnergy_ok hE).1
  have hs := hspin x y hin
  have hflip : flipped state x y x y = -state x y ∧ flipped state x y x y ≠ state x y ∧
      ∀ a b, (a, b) ≠ (x, y) → flipped state x y a b = state a b := by
    refine ⟨?_, ?_, ?_⟩
    · simp only [flipped, setCell, and_self, if_true]
      exact toChar_neg_spin hs
    · simp only [flipped, setCell, and_self, if_true]
      rw [toChar_neg_spin hs]
      omega
    · intro a b hab
      simp only [flipped, setCell]
      rw [if_neg]
      rintro ⟨rfl, rfl⟩
      exact hab rfl
  rw [transitionState_eq lib p rand pos rows cols state x y e hsel hE]
  split_ifs
  · exact ⟨_, rfl, by simpa using flipped_ne hs, fun _ => hflip, by simp⟩
  · exact ⟨_, rfl, by simp, by simp, fun _ => rfl⟩
  · exact ⟨_, rfl, by simpa using flipped_ne hs, fun _ => hflip, by simp⟩

/-- C5 (witness): the step on `downGrid` returns true and the cell `[0][0]`
changes from `-1` to `+1`. -/
theorem transitionState_single_cell_effect_witness :
    ∃ o, transitionState (K := ℝ) ⟨32767, Real.exp⟩ initialParams (fun _ => 0) 0 2 2 downGrid
        = .ok o ∧ (o.accepted = true ↔ o.state ≠ downGrid) := by
  obtain ⟨o, h1, h2, _⟩ := transitionState_single_cell_effect (K := ℝ) ⟨32767, Real.exp⟩
    initialParams (fun _ => 0) 0 2 2 downGrid 0 0 _ spinGrid_downGrid selectCell_zero
    (initialEnergy_downGrid _)
  exact ⟨o, h1, h2⟩

/-! ## C6: the acceptance rule when the energy increases -/

/-- C6 (counterexample): with `t = 0.0625 > 0`, `j = 1`, `h = 0` on the all-up
2 x 2 grid the chosen cell has `E_initial = -4 < E_final = 4`. For the
acceptance draw `rand() = 0` the value `u = rand() / RAND_MAX` is `0`, which is
below `exp(-(E_final - E_initial) / t) = exp(-128)`, so the claimed rule
accepts; the code computes `prob = expf(-128)`, which is `0` in binary32, and
returns false with the array unchanged. For the draw `rand() = RAND_MAX` the
value `u` is `1`, which is not in `[0, 1)`. -/
theorem expf_underflow_rejects_draw :
    selectCell (fun _ => 0) 0 2 2 = .ok (0, 0) ∧
    initialEnergy (K := ℝ) chilledParams 2 2 upGrid 0 0 = .ok (-4) ∧
    (0 : ℝ) < (chilledParams : Params ℝ).t ∧
    specDraw (K := ℝ) ⟨32767, Real.exp⟩ 0 = 0 ∧
    specDraw (K := ℝ) ⟨32767, Real.exp⟩ 0
      < Real.exp (-(4 - -4) / (chilledParams : Params ℝ).t) ∧
    acceptProbF (K := ℝ) ⟨32767, Real.exp⟩ (chilledParams : Params ℝ).t (energyGap (-4))
      = .fin 0 ∧
    transitionState (K := ℝ) ⟨32767, Real.exp⟩ chilledParams (fun _ => 0) 0 2 2 upGrid
      = .ok ⟨false, upGrid, 3⟩ ∧
    specDraw (K := ℝ) ⟨32767, Real.exp⟩ 32767 = 1 := by
  have hE : initialEnergy (K := ℝ) chilledParams 2 2 upGrid 0 0 = .ok (-4) := by
    rw [initialEnergy_upGrid]
    norm_num [chilledParams]
  have ht : (chilledParams : Params ℝ).t = 1 / 16 := rfl
  refine ⟨selectCell_zero, hE, by norm_num [chilledParams], by simp [specDraw], ?_, ?_, ?_,
    by simp [specDraw]⟩
  · simp only [specDraw, Nat.cast_zero, zero_div]
    exact Real.exp_pos _
  · rw [ht]
    exact acceptProbF_chilled _ rfl
  · rw [transitionState_eq _ _ _ _ _ _ _ 0 0 _ selectCell_zero hE, ht,
      acceptProbF_chilled _ rfl, acceptTest_zero]
    norm_num

/-- C6 (amended): for every temperature `t`, in particular `t > 0`, and a chosen
cell whose initial energy `e` satisfies `E_final = -e > e`, `transitionState`
returns, reads three draws, and
returns true (and flips the cell) iff the binary32 test
`(float) rand() < RAND_MAX * prob` holds, where
`prob = expf(-1 / t * (enf - eni))` is computed in binary32; otherwise it
returns false with the array unchanged. When `prob` is finite and
`RAND_MAX < 2 ^ 24`, with `u = rand() / RAND_MAX`: a true result implies
`u < prob`, and `u + 1 / RAND_MAX <= prob` implies a true result. -/
theorem transitionState_metropolis_rule [FloorRing K] (lib : Libc K) (p : Params K)
    (rand : Nat → Nat) (pos : Nat) (rows cols : Int) (state : Grid) (x y : Int) (e : K)
    (hsel : selectCell rand pos rows cols = .ok (x, y))
    (hE : initialEnergy p rows cols state x y = .ok e) (hgt : e < -e) :
    ∃ o, transitionState lib p rand pos rows cols state = .ok o ∧
      o.pos = pos + 3 ∧
      (o.accepted = true ↔
        acceptTest lib (rand (pos + 2)) (acceptProbF lib p.t (energyGap e)) = true) ∧
      (o.accepted = true → o.state = flipped state x y) ∧
      (o.accepted = false → o.state = state) ∧
      (∀ P : K, acceptProbF lib p.t (energyGap e) = .fin P →
        0 < lib.RAND_MAX → lib.RAND_MAX < 2 ^ 24 → rand (pos + 2) ≤ lib.RAND_MAX →
        (o.accepted = true → specDraw lib (rand (pos + 2)) < P) ∧
        (specDraw lib (rand (pos + 2)) + 1 / (lib.RAND_MAX : K) ≤ P → o.accepted = true)) := by
  have hkey : ∀ b : Bool,
      acceptTest lib (rand (pos + 2)) (acceptProbF lib p.t (energyGap e)) = b →
      ∀ P : K, acceptProbF lib p.t (energyGap e) = .fin P →
        0 < lib.RAND_MAX → lib.RAND_MAX < 2 ^ 24 → rand (pos + 2) ≤ lib.RAND_MAX →
        (b = true → specDraw lib (rand (pos + 2)) < P) ∧
        (specDraw lib (rand (pos + 2)) + 1 / (lib.RAND_MAX : K) ≤ P → b = true) := by
    intro b hb P hP hR0 hR hr
    have hR' : (0 : K) < (lib.RAND_MAX : K) := by exact_mod_cast hR0
    rw [hP] at hb
    constructor
    · intro h
      rw [h] at hb
      have h1 := acceptTest_lt lib _ P hR hr hb
      unfold specDraw
      rw [div_lt_iff₀ hR']
      linarith
    · intro h
      rw [← hb]
      apply acceptTest_of_le lib _ P hR hr
      unfold specDraw at h
      rw [← add_div, div_le_iff₀ hR'] at h
      linarith
  rw [transitionState_eq lib p rand pos rows cols state x y e hsel hE, if_pos hgt.le]
  by_cases hacc : acceptTest lib (rand (pos + 2)) (acceptProbF lib p.t (energyGap e)) = true
  · rw [if_pos hacc]
    exact ⟨_, rfl, rfl, by simpa using hacc, fun _ => rfl, by simp, hkey true hacc⟩
  · rw [if_neg hacc]
    have hf : acceptTest lib (rand (pos + 2)) (acceptProbF lib p.t (energyGap e)) = false := by
      simpa using hacc
    exact ⟨_, rfl, rfl, by simpa using hf, by simp, fun _ => rfl, hkey false hf⟩

/-- C6 (witness): with the initial parameters on the all-up 2 x 2 grid the
chosen cell has `E_initial = -4 < E_final = 4`, and the draw `0` is accepted
because `prob = expf(-40)` is a positive binary32 value. -/
theorem transitionState_metropolis_rule_witness :
    ∃ o, transitionState (K := ℝ) ⟨32767, Real.exp⟩ initialParams (fun _ => 0) 0 2 2 upGrid
        = .ok o ∧ o.accepted = true := by
  obtain ⟨o, h1, _, h2, _⟩ := transitionState_metropolis_rule (K := ℝ) ⟨32767, Real.exp⟩
    initialParams (fun _ => 0) 0 2 2 upGrid 0 0 _ selectCell_zero (initialEnergy_upGrid _)
    (by norm_num [initialParams])
  exact ⟨o, h1, h2.mpr (acceptTest_initial_upGrid _ (by norm_num [initialParams]))⟩

/-! ## C7: temperature zero -/

/-- C7 (counterexample): with `t = 0` on the all-up 2 x 2 grid the chosen cell
has `E_initial = -4 < E_final = 4`; the step evaluates the quotient `-1 / t`
with the divisor `0`, its value is `-inf`, and that value decides the step: the
draw `0` is rejected, while with `t = 0.2` the same draw on the same grid is
accepted. -/
theorem zero_temperature_quotient_is_infinite :
    (coldParams : Params ℝ).t = 0 ∧
    initialEnergy (K := ℝ) coldParams 2 2 upGrid 0 0 = .ok (-4) ∧
    fdiv (-1) (coldParams : Params ℝ).t = CFloat.ninf ∧
    acceptProb ⟨32767, Real.exp⟩ (coldParams : Params ℝ).t (4 - -4)
      = fexp Real.exp (fmul (fdiv (-1) 0) (4 - -4)) ∧
    transitionState (K := ℝ) ⟨32767, Real.exp⟩ coldParams (fun _ => 0) 0 2 2 upGrid
      = .ok ⟨false, upGrid, 3⟩ ∧
    transitionState (K := ℝ) ⟨32767, Real.exp⟩ initialParams (fun _ => 0) 0 2 2 upGrid
      = .ok ⟨true, flipped upGrid 0 0, 3⟩ := by
  refine ⟨rfl, ?_, ?_, rfl, ?_, ?_⟩
  · rw [initialEnergy_upGrid]
    norm_num [coldParams]
  · exact fdiv_neg_one_zero
  · have ht : (coldParams : Params ℝ).t = 0 := rfl
    rw [transitionState_eq _ _ _ _ _ _ _ 0 0 _ selectCell_zero (initialEnergy_upGrid _), ht,
      acceptTest_zeroTemp _ _ (by norm_num [coldParams])]
    norm_num [coldParams]
  · have ht : (initialParams : Params ℝ).t = 1 / 5 := rfl
    rw [transitionState_eq _ _ _ _ _ _ _ 0 0 _ selectCell_zero (initialEnergy_upGrid _), ht,
      acceptTest_initial_upGrid _ (by norm_num [initialParams])]
    norm_num [initialParams]

/-- C7 (amended): with `t = 0` and a chosen cell whose initial energy `e`
satisfies `E_final = -e > e`, `transitionState` returns false and leaves the
array unchanged for every acceptance draw; the quotient `-1 / t` is evaluated
with the divisor `0` and is `-inf`, and the acceptance probability computed
from it is `expf(-inf) = 0`. -/
theorem transitionState_zero_temperature [FloorRing K] (lib : Libc K) (p : Params K)
    (rand : Nat → Nat) (pos : Nat) (rows cols : Int) (state : Grid) (x y : Int) (e : K)
    (hsel : selectCell rand pos rows cols = .ok (x, y))
    (hE : initialEnergy p rows cols state x y = .ok e)
    (ht : p.t = 0) (hgt : e < -e) :
    transitionState lib p rand pos rows cols state = .ok ⟨false, state, pos + 3⟩ ∧
    fdiv (-1) p.t = CFloat.ninf ∧
    acceptProb lib p.t (-e - e) = .fin 0 := by
  have hd : 0 < -e - e := by linarith
  have hp : acceptProb lib p.t (-e - e) = .fin 0 := by
    rw [ht]; exact acceptProb_zero_of_pos lib hd
  refine ⟨?_, by rw [ht]; exact fdiv_neg_one_zero, hp⟩
  rw [transitionState_eq lib p rand pos rows cols state x y e hsel hE, if_pos hgt.le, ht,
    acceptTest_zeroTemp lib _ (by linarith)]
  simp

/-- C7 (witness): with `t = 0` on the all-up 2 x 2 grid the step is rejected. -/
theorem transitionState_zero_temperature_witness :
    transitionState (K := ℝ) ⟨32767, Real.exp⟩ coldParams (fun _ => 0) 0 2 2 upGrid
      = .ok ⟨false, upGrid, 0 + 3⟩ :=
  (transitionState_zero_temperature (K := ℝ) ⟨32767, Real.exp⟩ coldParams (fun _ => 0) 0 2 2
    upGrid 0 0 _ selectCell_zero (initialEnergy_upGrid _) rfl
    (by norm_num [coldParams])).1

/-! ## C8: the temperature is never negative -/

theorem keyDown_t_nonneg {p q : Params K} {sym : Key} (h : keyDown p sym = some q)
    (hp : 0 ≤ p.t) : 0 ≤ q.t := by
  cases sym <;> simp only [keyDown, Option.some.injEq, reduceCtorEq] at h <;> subst h <;>
    try dsimp only
  · linarith
  · split_ifs with h1
    · exact le_refl _
    · exact not_lt.mp h1
  all_goals exact hp

theorem handleEvents_t_nonneg (evs : List Event) (p : Params K) (hp : 0 ≤ p.t) :
    0 ≤ (handleEvents p evs).params.t := by
  induction evs generalizing p with
  | nil => exact hp
  | cons ev rest ih =>
    cases ev with
    | quit => exact hp
    | other => exact ih p hp
    | keydown sym =>
      simp only [handleEvents]
      cases hk : keyDown p sym with
      | none => exact hp
      | some q => exact ih q (keyDown_t_nonneg hk hp)

theorem pollAll_t_nonneg (queues : List (List Event)) (p : Params K) (hp : 0 ≤ p.t) :
    0 ≤ (pollAll p queues).t := by
  induction queues generalizing p with
  | nil => exact hp
  | cons evs rest ih =>
    simp only [pollAll, List.foldl_cons]
    exact ih _ (handleEvents_t_nonneg evs p hp)

/-- C8: starting from the initial temperature `t = 0.2`, after every finite
sequence of calls of `handleEvents`, each on an arbitrary queue of events, the
temperature satisfies `t >= 0`; and a DOWN key computes `t = max(0, t - 0.1)`. -/
theorem temperature_clamp (queues : List (List Event)) (p : Params K) :
    0 ≤ (pollAll (initialParams : Params K) queues).t ∧
    keyDown p Key.DOWN = some { p with t := max 0 (p.t - 1 / 10) } := by
  refine ⟨pollAll_t_nonneg queues _ (by norm_num [initialParams]), ?_⟩
  simp only [keyDown]
  congr 2
  split_ifs with h
  · exact (max_eq_left h.le).symm
  · exact (max_eq_right (not_lt.mp h)).symm

/-! ## C9: the render interval -/

theorem handleEvents_replicate_k (n : Nat) (p : Params K) (rest : List Event)
    (h0 : 0 ≤ p.wait) (h1 : p.wait + 10 * n ≤ 2147483647) :
    handleEvents p (List.replicate n (Event.keydown Key.k) ++ rest)
      = handleEvents { p with wait := p.wait + 10 * n } rest := by
  induction n generalizing p with
  | zero => simp
  | succ n ih =>
    have hw : toInt32 (p.wait + 10) = p.wait + 10 := by
      unfold toInt32
      omega
    rw [List.replicate_succ, List.cons_append]
    simp only [handleEvents, keyDown, hw]
    rw [ih _ (by simp only; omega) (by simp only; omega)]
    congr 2
    push_cast
    ring

/-- C9 (failing input): starting from `wait = 0`, after 214748365 presses of
the K key the addition `wait += 10` has left the range of `int` and `wait` is
`-2147483646`, which is negative. -/
theorem wait_negative_after_overflow :
    (handleEvents (initialParams : Params ℚ)
      (List.replicate 214748365 (Event.keydown Key.k))).params.wait = -2147483646 := by
  have hn : (214748365 : Nat) = 214748364 + 1 := rfl
  rw [hn, List.replicate_succ',
    handleEvents_replicate_k 214748364 _ _ (by simp [initialParams])
      (by simp [initialParams])]
  simp [handleEvents, keyDown, initialParams, toInt32]

/-! ## C10: a quit signal and the rest of the iteration -/

theorem mainLoop_of_quit [FloorRing K] (lib : Libc K) (env : Env) (rows cols : Int) (fuel : Nat)
    (d : Driver K) (hq : d.quit = true) : mainLoop lib env rows cols fuel d = .ok d := by
  cases fuel with
  | zero => rfl
  | succ n => simp [mainLoop, hq]

omit [LinearOrderedField K] in
theorem renderStep_quit (env : Env) (d : Driver K) : (renderStep env d).quit = d.quit := by
  simp only [renderStep]
  split_ifs <;> rfl

omit [LinearOrderedField K] in
theorem renderStep_log (env : Env) (d : Driver K) :
    stepCount (renderStep env d).log = stepCount d.log ∧
    renderCount (renderStep env d).log ≤ renderCount d.log + 1 ∧
    (d.transitionReady = false → renderStep env d = d) := by
  simp only [renderStep]
  split_ifs <;> simp_all [stepCount, renderCount, Act.isStep, Act.isRender]

theorem seekStep_ok [FloorRing K] {lib : Libc K} {env : Env} {rows cols : Int} {d d' : Driver K}
    (h : seekStep lib env rows cols d = .ok d') :
    d'.quit = d.quit ∧
    stepCount d'.log = stepCount d.log + (if d.transitionReady then 0 else 1) ∧
    renderCount d'.log = renderCount d.log := by
  unfold seekStep at h
  by_cases hr : d.transitionReady = true
  · simp only [hr, if_true, pure, Except.pure, Except.ok.injEq] at h
    subst h
    simp [hr]
  · rw [Bool.not_eq_true] at hr
    cases ho : transitionState lib d.params env.rand d.randPos rows cols d.state with
    | error f => simp [hr, ho, bind, Except.bind] at h
    | ok o =>
      simp only [hr, ho, bind, Except.bind, pure, Except.pure, Bool.false_eq_true, if_false,
        Except.ok.injEq] at h
      subst h
      simp [hr, stepCount, renderCount, Act.isStep, Act.isRender]

theorem loopBody_seekingDriver [FloorRing K] (lib : Libc K) :
    loopBody lib quitEnv 2 2 (seekingDriver : Driver K)
      = .ok ⟨initialParams, flipped downGrid 0 0, 5, false, true, 1, 2, 2,
          [Act.render 5 5 0 (flipped downGrid 0 0), Act.step true]⟩ := by
  simp only [loopBody, seekStep, seekingDriver, quitEnv, handleEvents, if_true,
    Bool.false_eq_true, if_false, transitionState_downGrid, bind, Except.bind, pure, Except.pure]
  simp [renderStep, toUint32, initialParams]

/-- C10 (counterexample): a seeking driver polls a window-close event, so
`handleEvents` reports quit; in the same iteration `transitionState` is still
called, its flip of cell `[0][0]` is accepted and rendered: the log holds a step
and a render, and the array differs from the one at the time of the quit. -/
theorem quit_iteration_still_steps_and_renders :
    (handleEvents (seekingDriver : Driver ℝ).params (quitEnv.events 0)).quit = true ∧
    loopBody (K := ℝ) ⟨32767, Real.exp⟩ quitEnv 2 2 seekingDriver
      = .ok ⟨initialParams, flipped downGrid 0 0, 5, false, true, 1, 2, 2,
          [Act.render 5 5 0 (flipped downGrid 0 0), Act.step true]⟩ ∧
    (seekingDriver : Driver ℝ).log = [] ∧
    (seekingDriver : Driver ℝ).state 0 0 = -1 ∧ flipped downGrid 0 0 0 0 = 1 := by
  refine ⟨?_, loopBody_seekingDriver _, rfl, ?_, ?_⟩
  · simp [seekingDriver, quitEnv, handleEvents]
  · simp [seekingDriver, downGrid]
  · simp [flipped, setCell, downGrid, toChar]

/-- C10 (amended): when `handleEvents` reports a quit signal in an iteration,
the rest of that iteration still runs - one more call of `transitionState`
exactly when no accepted flip is pending, and at most one more render - and the
loop then ends: `quit` is set, and for every further amount of fuel the loop
leaves the driver (array, log of steps and renders, timer) as it is. -/
theorem quit_ends_loop_after_iteration [FloorRing K] (lib : Libc K) (env : Env) (rows cols : Int)
    (fuel : Nat) (d d' : Driver K)
    (hq : (handleEvents d.params (env.events d.iter)).quit = true)
    (h : loopBody lib env rows cols d = .ok d') :
    d'.quit = true ∧
    stepCount d'.log = stepCount d.log + (if d.transitionReady then 0 else 1) ∧
    renderCount d'.log ≤ renderCount d.log + 1 ∧
    mainLoop lib env rows cols fuel d' = .ok d' := by
  unfold loopBody at h
  cases hs : seekStep lib env rows cols
      { d with quit := (handleEvents d.params (env.events d.iter)).quit,
               params := (handleEvents d.params (env.events d.iter)).params,
               iter := d.iter + 1 } with
  | error f => simp [hs, bind, Except.bind] at h
  | ok d2 =>
    simp only [hs, bind, Except.bind, pure, Except.pure, Except.ok.injEq] at h
    subst h
    obtain ⟨s1, s2, s3⟩ := seekStep_ok hs
    obtain ⟨r1, r2, _⟩ := renderStep_log env d2
    have hquit : (renderStep env d2).quit = true := by
      rw [renderStep_quit, s1]; exact hq
    refine ⟨hquit, ?_, ?_, mainLoop_of_quit lib env rows cols fuel _ hquit⟩
    · rw [r1, s2]
    · rw [← s3]; exact r2

/-- C10 (witness): for the seeking driver that polls a window-close event the
iteration ends with `quit` set, and three more units of fuel change nothing. -/
theorem quit_ends_loop_after_iteration_witness :
    ∃ d', loopBody (K := ℝ) ⟨32767, Real.exp⟩ quitEnv 2 2 seekingDriver = .ok d' ∧
      d'.quit = true ∧ mainLoop (K := ℝ) ⟨32767, Real.exp⟩ quitEnv 2 2 3 d' = .ok d' :=
  ⟨_, loopBody_seekingDriver _,
    (quit_ends_loop_after_iteration (K := ℝ) ⟨32767, Real.exp⟩ quitEnv 2 2 3 seekingDriver _
      (by simp [seekingDriver, quitEnv, handleEvents]) (loopBody_seekingDriver _)).1,
    (quit_ends_loop_after_iteration (K := ℝ) ⟨32767, Real.exp⟩ quitEnv 2 2 3 seekingDriver _
      (by simp [seekingDriver, quitEnv, handleEvents]) (loopBody_seekingDriver _)).2.2.2⟩

/-! ## Runs of the main loop -/

theorem loopBody_square_ok [FloorRing K] (lib : Libc K) (env : Env) {n : Int} (hn : 0 < n) (d : Driver K) :
    ∃ d', loopBody lib env n n d = .ok d' := by
  unfold loopBody seekStep
  by_cases hr : d.transitionReady = true
  · simp only [hr, if_true, pure, Except.pure, bind, Except.bind]
    exact ⟨_, rfl⟩
  · rw [Bool.not_eq_true] at hr
    obtain ⟨o, ho⟩ := transitionState_square_ok lib
      (handleEvents d.params (env.events d.iter)).params env.rand d.randPos hn d.state
    simp only [hr, ho, Bool.false_eq_true, if_false, pure, Except.pure, bind, Except.bind]
    exact ⟨_, rfl⟩

theorem mainLoop_square_ok [FloorRing K] (lib : Libc K) (env : Env) {n : Int} (hn : 0 < n) (fuel : Nat)
    (d : Driver K) : ∃ d', mainLoop lib env n n fuel d = .ok d' := by
  induction fuel generalizing d with
  | zero => exact ⟨d, rfl⟩
  | succ k ih =>
    unfold mainLoop
    by_cases hq : d.quit = true
    · simp only [hq, if_true]
      exact ⟨d, rfl⟩
    · obtain ⟨d1, h1⟩ := loopBody_square_ok lib env hn d
      simp only [hq, h1, bind, Except.bind, if_false]
      exact ih d1

theorem risingEnv_mono : Monotone risingEnv.ticks := by
  intro a b hab
  simp only [risingEnv]
  omega

theorem risingEnv_bounded (k : Nat) : risingEnv.ticks k < 4294967296 := by
  simp only [risingEnv]
  omega

theorem spinGrid_diagGrid : spinGrid 2 2 diagGrid := by
  intro a b _
  simp only [diagGrid]
  split_ifs <;> simp

theorem transitionState_diag_first [FloorRing K] (lib : Libc K) :
    transitionState lib ⟨0, 1 / 5, 1, 10⟩ risingEnv.rand 0 2 2 diagGrid
      = .ok ⟨true, flipped diagGrid 0 0, 2⟩ := by
  have hsel : selectCell risingEnv.rand 0 2 2 = .ok (0, 0) := by
    simp [selectCell, cRem, risingEnv, bind, Except.bind, pure, Except.pure]
  have hE : initialEnergy (⟨0, 1 / 5, 1, 10⟩ : Params K) 2 2 diagGrid 0 0 = .ok 4 := by
    simp [initialEnergy, neighbourSum, readCell, inGrid, xL, xR, yT, yB, diagGrid,
      bind, Except.bind, pure, Except.pure]
  rw [transitionState_eq lib _ _ _ _ _ _ 0 0 _ hsel hE]
  norm_num

theorem transitionState_diag_second [FloorRing K] (lib : Libc K) :
    transitionState lib ⟨0, 1 / 5, 1, 10⟩ risingEnv.rand 2 2 2 (flipped diagGrid 0 0)
      = .ok ⟨true, flipped (flipped diagGrid 0 0) 1 1, 4⟩ := by
  have hsel : selectCell risingEnv.rand 2 2 2 = .ok (1, 1) := by
    simp [selectCell, cRem, risingEnv, bind, Except.bind, pure, Except.pure, Int.tmod]
  have hE : initialEnergy (⟨0, 1 / 5, 1, 10⟩ : Params K) 2 2 (flipped diagGrid 0 0) 1 1
      = .ok 4 := by
    simp [initialEnergy, neighbourSum, readCell, inGrid, xL, xR, yT, yB, diagGrid, flipped,
      setCell, bind, Except.bind, pure, Except.pure]
  rw [transitionState_eq lib _ _ _ _ _ _ 1 1 _ hsel hE]
  norm_num

theorem mainLoop_diagDriver [FloorRing K] (lib : Libc K) :
    mainLoop lib risingEnv 2 2 2 (diagDriver : Driver K)
      = .ok ⟨⟨0, 1 / 5, 1, 10⟩, flipped (flipped diagGrid 0 0) 1 1, 400, false, false, 2, 4, 4,
          [Act.render 300 400 10 (flipped (flipped diagGrid 0 0) 1 1), Act.step true,
           Act.render 100 200 10 (flipped diagGrid 0 0), Act.step true]⟩ := by
  have h1 := transitionState_diag_first lib
  have h2 := transitionState_diag_second lib
  have e : risingEnv.events = fun _ => [] := rfl
  have t0 : risingEnv.ticks 0 = 100 := rfl
  have t1 : risingEnv.ticks 1 = 200 := rfl
  have t2 : risingEnv.ticks 2 = 300 := rfl
  have t3 : risingEnv.ticks 3 = 400 := rfl
  simp only [mainLoop, loopBody, seekStep, diagDriver, e, handleEvents, Bool.false_eq_true,
    if_false, h1, bind, Except.bind, pure, Except.pure, renderStep, if_true, t0, t1,
    toUint32]
  norm_num [h2, t2, t3]

/-! ## C11: throttling -/
theorem keyDown_wait_le {p q : Params K} {sym : Key} (h : keyDown p sym = some q)
    (hp : p.wait ≤ 2147483647) : q.wait ≤ 2147483647 := by
  cases sym <;> simp only [keyDown, Option.some.injEq, reduceCtorEq] at h <;> subst h <;>
    try dsimp only
  case k => unfold toInt32; omega
  case m => unfold toInt32; split_ifs <;> omega
  all_goals exact hp

theorem handleEvents_wait_le (evs : List Event) (p : Params K) (hp : p.wait ≤ 2147483647) :
    (handleEvents p evs).params.wait ≤ 2147483647 := by
  induction evs generalizing p with
  | nil => exact hp
  | cons ev rest ih =>
    cases ev with
    | quit => exact hp
    | other => exact ih p hp
    | keydown sym =>
      simp only [handleEvents]
      cases hk : keyDown p sym with
      | none => exact hp
      | some q => exact ih q (keyDown_wait_le hk hp)

theorem seekStep_throttleInv [FloorRing K] {lib : Libc K} {env : Env} {rows cols : Int} {d d' : Driver K}
    (h : seekStep lib env rows cols d = .ok d') (hinv : throttleInv env d) :
    throttleInv env d' := by
  unfold seekStep at h
  by_cases hr : d.transitionReady = true
  · simp only [hr, if_true, pure, Except.pure, Except.ok.injEq] at h
    subst h
    exact hinv
  · rw [Bool.not_eq_true] at hr
    cases ho : transitionState lib d.params env.rand d.randPos rows cols d.state with
    | error f => simp [hr, ho, bind, Except.bind] at h
    | ok o =>
      simp only [hr, ho, bind, Except.bind, pure, Except.pure, Bool.false_eq_true, if_false,
        Except.ok.injEq] at h
      subst h
      exact hinv

omit [LinearOrderedField K] in
theorem renderStep_throttleInv {env : Env} {d : Driver K}
    (hmono : Monotone env.ticks) (hu : ∀ k, env.ticks k < 4294967296)
    (hinv : throttleInv env d) : throttleInv env (renderStep env d) := by
  obtain ⟨hw, hchain, hle, hhead⟩ := hinv
  have hid : ∀ k, toUint32 (env.ticks k : Int) = (env.ticks k : Int) := by
    intro k
    have := hu k
    unfold toUint32
    omega
  by_cases hr : d.transitionReady = true
  · by_cases hc : toUint32 (toUint32 (env.ticks d.tickPos) - d.timer) > toUint32 d.params.wait
    · have hR : renderStep env d =
          { d with timer := toUint32 (env.ticks (d.tickPos + 1)), transitionReady := false,
                   tickPos := d.tickPos + 2,
                   log := .render (toUint32 (env.ticks d.tickPos))
                     (toUint32 (env.ticks (d.tickPos + 1))) d.params.wait d.state
                     :: d.log } := by
        simp only [renderStep, hr, if_true, hc]
      rw [hR]
      have hstep : (env.ticks d.tickPos : Int) ≤ (env.ticks (d.tickPos + 1) : Int) := by
        exact_mod_cast hmono (Nat.le_succ _)
      rw [hid] at hc
      refine ⟨hw, ?_, ?_, ?_⟩
      · simp only [renderRecords, hid]
        rw [List.chain'_cons']
        refine ⟨?_, hchain⟩
        intro r hr'
        obtain ⟨hst, k, hk, htk⟩ := hhead r hr'
        have hrle := hle r (List.mem_of_mem_head? hr')
        have hkle : (env.ticks k : Int) ≤ (env.ticks d.tickPos : Int) := by
          exact_mod_cast hmono hk.le
        have hb := hu d.tickPos
        have hb' : (0 : Int) ≤ (env.ticks k : Int) := Int.ofNat_nonneg _
        unfold toUint32 at hc
        simp only [throttled]
        omega
      · intro r hr'
        simp only [renderRecords, hid, List.mem_cons] at hr'
        rcases hr' with rfl | hr'
        · exact hstep
        · exact hle r hr'
      · intro r hr'
        simp only [renderRecords, hid, List.head?_cons, Option.mem_def, Option.some.injEq] at hr'
        subst hr'
        exact ⟨(hid _).symm, d.tickPos + 1, by show d.tickPos + 1 < d.tickPos + 2; omega, hid _⟩
    · have hR : renderStep env d = { d with tickPos := d.tickPos + 1 } := by
        simp only [renderStep, hr, if_true, hc, if_false]
      rw [hR]
      refine ⟨hw, hchain, hle, ?_⟩
      intro r hr'
      obtain ⟨hst, k, hk, htk⟩ := hhead r hr'
      exact ⟨hst, k, by show k < d.tickPos + 1; omega, htk⟩
  · have hR : renderStep env d = d := by
      simp only [renderStep, hr, if_false]
      rfl
    rw [hR]
    exact ⟨hw, hchain, hle, hhead⟩

theorem loopBody_throttleInv [FloorRing K] {lib : Libc K} {env : Env} {rows cols : Int} {d d' : Driver K}
    (hmono : Monotone env.ticks) (hu : ∀ k, env.ticks k < 4294967296)
    (h : loopBody lib env rows cols d = .ok d') (hinv : throttleInv env d) :
    throttleInv env d' := by
  unfold loopBody at h
  cases hs : seekStep lib env rows cols
      { d with quit := (handleEvents d.params (env.events d.iter)).quit,
               params := (handleEvents d.params (env.events d.iter)).params,
               iter := d.iter + 1 } with
  | error f => simp [hs, bind, Except.bind] at h
  | ok d2 =>
    simp only [hs, bind, Except.bind, pure, Except.pure, Except.ok.injEq] at h
    subst h
    refine renderStep_throttleInv hmono hu (seekStep_throttleInv hs ?_)
    exact ⟨handleEvents_wait_le _ _ hinv.1, hinv.2.1, hinv.2.2.1, hinv.2.2.2⟩

theorem mainLoop_throttleInv [FloorRing K] {lib : Libc K} {env : Env} {rows cols : Int}
    (hmono : Monotone env.ticks) (hu : ∀ k, env.ticks k < 4294967296)
    (fuel : Nat) (d d' : Driver K)
    (h : mainLoop lib env rows cols fuel d = .ok d') (hinv : throttleInv env d) :
    throttleInv env d' := by
  induction fuel generalizing d with
  | zero =>
    simp only [mainLoop, Except.ok.injEq] at h
    subst h
    exact hinv
  | succ n ih =>
    unfold mainLoop at h
    by_cases hq : d.quit = true
    · simp only [hq, if_true, Except.ok.injEq] at h
      subst h
      exact hinv
    · cases hb : loopBody lib env rows cols d with
      | error f => simp [hq, hb, bind, Except.bind] at h
      | ok d1 =>
        simp only [hq, hb, bind, Except.bind, if_false] at h
        exact ih d1 h (loopBody_throttleInv hmono hu hb hinv)

/-- C11: in every run of the main loop that starts with an empty log and a
`wait` within `int`, over a clock whose `Uint32` readings never decrease, any
two consecutive renders are at least `W` apart, where `W` is the value of `wait`
when the second render was decided: `t2 - t1 >= W` for `t1`, `t2` the clock
values read in the render tests, or the clock values stored in `timer`, or one
of each. -/
theorem renders_throttled [FloorRing K] (lib : Libc K) (env : Env) (rows cols : Int) (fuel : Nat)
    (d d' : Driver K) (hmono : Monotone env.ticks) (hu : ∀ k, env.ticks k < 4294967296)
    (hlog : d.log = []) (hw : d.params.wait ≤ 2147483647)
    (h : mainLoop lib env rows cols fuel d = .ok d') :
    List.Chain' throttled (renderRecords d'.log) := by
  refine (mainLoop_throttleInv hmono hu fuel d d' h ⟨hw, ?_, ?_, ?_⟩).2.1 <;>
    simp [hlog, renderRecords]

/-- C11 (witness): in the two iterations of the run on `diagGrid` with
`wait = 10` the renders are tested at clock values `100` and `300` and stamped
`200` and `400`; they are `throttled`. -/
theorem renders_throttled_witness :
    List.Chain' throttled [(300, 400, 10), (100, 200, 10)] := by
  have h := renders_throttled (K := ℝ) ⟨32767, Real.exp⟩ risingEnv 2 2 2 diagDriver _
    risingEnv_mono risingEnv_bounded rfl (by simp [diagDriver]) (mainLoop_diagDriver _)
  simpa [renderRecords] using h

/-! ## C12: accepted flips and renders alternate -/

theorem oneCellApart_flipped {rows cols : Int} {state : Grid} {x y : Int}
    (hs : spinGrid rows cols state) (hin : inGrid rows cols x y) :
    oneCellApart rows cols (flipped state x y) state := by
  refine ⟨x, y, hin, ?_, ?_⟩
  · simp only [flipped, setCell, and_self, if_true]
    rw [toChar_neg_spin (hs x y hin)]
    rcases hs x y hin with h | h <;> omega
  · intro a b hab
    simp only [flipped, setCell]
    rw [if_neg]
    rintro ⟨rfl, rfl⟩
    exact hab rfl

theorem transitionState_effect [FloorRing K] {lib : Libc K} {p : Params K} {rand : Nat → Nat} {pos : Nat}
    {rows cols : Int} {state : Grid} {o : Outcome}
    (h : transitionState lib p rand pos rows cols state = .ok o)
    (hs : spinGrid rows cols state) :
    (o.accepted = false ∧ o.state = state) ∨
    (o.accepted = true ∧ oneCellApart rows cols o.state state ∧ spinGrid rows cols o.state) := by
  obtain ⟨x, y, e, hsel, hE⟩ := transitionState_ok h
  have hin := (initialEnergy_ok hE).1
  rw [transitionState_eq lib p rand pos rows cols state x y e hsel hE] at h
  split_ifs at h <;> cases h
  · exact Or.inr ⟨rfl, oneCellApart_flipped hs hin, spinGrid_flipped hs hin⟩
  · exact Or.inl ⟨rfl, rfl⟩
  · exact Or.inr ⟨rfl, oneCellApart_flipped hs hin, spinGrid_flipped hs hin⟩

theorem frames_head (start : Grid) (log : List Act) : ∃ f, (frames start log).head? = some f := by
  induction log with
  | nil => exact ⟨start, rfl⟩
  | cons a rest ih =>
    cases a with
    | step b => simpa [frames] using ih
    | render n s w f => exact ⟨f, rfl⟩

theorem getLast?_cons_step (b : Bool) (log : List Act)
    (h : ∀ a ∈ log.getLast?, a.isRender = false) :
    ∀ a ∈ (Act.step b :: log).getLast?, a.isRender = false := by
  cases log with
  | nil =>
    intro a ha
    simp only [List.getLast?_singleton, Option.mem_def, Option.some.injEq] at ha
    subst ha
    rfl
  | cons c rest =>
    rw [List.getLast?_cons_cons]
    exact h

theorem seekStep_alternationInv [FloorRing K] {lib : Libc K} {env : Env} {rows cols : Int} {start : Grid}
    {d d' : Driver K} (h : seekStep lib env rows cols d = .ok d')
    (hinv : alternationInv rows cols start d) : alternationInv rows cols start d' := by
  unfold seekStep at h
  by_cases hr : d.transitionReady = true
  · simp only [hr, if_true, pure, Except.pure, Except.ok.injEq] at h
    subst h
    exact hinv
  · rw [Bool.not_eq_true] at hr
    obtain ⟨i1, i2, i3, i4, i5, i6, i7⟩ := hinv
    cases ho : transitionState lib d.params env.rand d.randPos rows cols d.state with
    | error f => simp [hr, ho, bind, Except.bind] at h
    | ok o =>
      simp only [hr, ho, bind, Except.bind, pure, Except.pure, Bool.false_eq_true, if_false,
        Except.ok.injEq] at h
      subst h
      have hhead : d.log.head? ≠ some (Act.step true) := by
        intro hx
        have := i4.mpr hx
        rw [hr] at this
        exact Bool.false_ne_true this
      have hchain : List.Chain' alternates (Act.step o.accepted :: d.log) := by
        rw [List.chain'_cons']
        refine ⟨?_, i2⟩
        intro a ha
        simp only [alternates, Act.isRender, Bool.false_eq_true, iff_false]
        rintro rfl
        exact hhead ha
      obtain ⟨f, hf⟩ := frames_head start d.log
      have hstate : d.state = f := by
        have := i7 f hf
        simpa [hr] using this
      simp only [hr, Bool.false_eq_true, if_false, add_zero] at i5
      rcases transitionState_effect ho i1 with ⟨ha, hst⟩ | ⟨ha, hone, hsp⟩
      · refine ⟨by rw [hst]; exact i1, by rw [ha] at hchain ⊢; exact hchain,
          getLast?_cons_step _ _ i3, ?_, ?_, ?_, ?_⟩
        · simp [ha]
        · simp [ha, acceptCount, renderCount, Act.isRender] at i5 ⊢
          exact i5
        · simpa [frames] using i6
        · intro g hg
          simp only [frames] at hg
          rw [hf] at hg
          simp only [Option.mem_def, Option.some.injEq] at hg
          subst hg
          simp [ha, hst, hstate]
      · refine ⟨hsp, by rw [ha] at hchain ⊢; exact hchain, getLast?_cons_step _ _ i3, ?_, ?_, ?_, ?_⟩
        · simp [ha]
        · simp [ha, acceptCount, renderCount, Act.isRender] at i5 ⊢
          exact i5
        · simpa [frames] using i6
        · intro g hg
          simp only [frames] at hg
          rw [hf] at hg
          simp only [Option.mem_def, Option.some.injEq] at hg
          subst hg
          simp only [ha, if_true]
          rw [← hstate]
          exact hone

omit [LinearOrderedField K] in
theorem renderStep_alternationInv {env : Env} {rows cols : Int} {start : Grid}
    {d : Driver K} (hinv : alternationInv rows cols start d) :
    alternationInv rows cols start (renderStep env d) := by
  obtain ⟨i1, i2, i3, i4, i5, i6, i7⟩ := hinv
  by_cases hr : d.transitionReady = true
  · by_cases hc : toUint32 (toUint32 (env.ticks d.tickPos) - d.timer) > toUint32 d.params.wait
    · have hR : renderStep env d =
          { d with timer := toUint32 (env.ticks (d.tickPos + 1)), transitionReady := false,
                   tickPos := d.tickPos + 2,
                   log := .render (toUint32 (env.ticks d.tickPos))
                     (toUint32 (env.ticks (d.tickPos + 1))) d.params.wait d.state
                     :: d.log } := by
        simp only [renderStep, hr, if_true, hc]
      rw [hR]
      have hhead := i4.mp hr
      obtain ⟨f, hf⟩ := frames_head start d.log
      have hone : oneCellApart rows cols d.state f := by
        have := i7 f hf
        simpa [hr] using this
      simp only [hr, if_true] at i5
      refine ⟨i1, ?_, ?_, ?_, ?_, ?_, ?_⟩
      · rw [List.chain'_cons']
        refine ⟨?_, i2⟩
        intro a ha
        rw [hhead] at ha
        simp only [Option.mem_def, Option.some.injEq] at ha
        subst ha
        simp [alternates, Act.isRender]
      · cases hl : d.log with
        | nil => rw [hl] at hhead; simp at hhead
        | cons c rest =>
          rw [List.getLast?_cons_cons, ← hl]
          exact i3
      · simp
      · simp [acceptCount, renderCount, Act.isRender] at i5 ⊢
        exact i5
      · simp only [frames]
        rw [List.chain'_cons']
        refine ⟨?_, i6⟩
        intro g hg
        rw [hf] at hg
        simp only [Option.mem_def, Option.some.injEq] at hg
        subst hg
        exact hone
      · intro g hg
        simp only [frames, List.head?_cons, Option.mem_def, Option.some.injEq] at hg
        subst hg
        simp
    · have hR : renderStep env d = { d with tickPos := d.tickPos + 1 } := by
        simp only [renderStep, hr, if_true, hc, if_false]
      rw [hR]
      exact ⟨i1, i2, i3, i4, i5, i6, i7⟩
  · have hR : renderStep env d = d := by
      simp only [renderStep, hr, if_false]
      rfl
    rw [hR]
    exact ⟨i1, i2, i3, i4, i5, i6, i7⟩

theorem loopBody_alternationInv [FloorRing K] {lib : Libc K} {env : Env} {rows cols : Int} {start : Grid}
    {d d' : Driver K} (h : loopBody lib env rows cols d = .ok d')
    (hinv : alternationInv rows cols start d) : alternationInv rows cols start d' := by
  unfold loopBody at h
  cases hs : seekStep lib env rows cols
      { d with quit := (handleEvents d.params (env.events d.iter)).quit,
               params := (handleEvents d.params (env.events d.iter)).params,
               iter := d.iter + 1 } with
  | error f => simp [hs, bind, Except.bind] at h
  | ok d2 =>
    simp only [hs, bind, Except.bind, pure, Except.pure, Except.ok.injEq] at h
    subst h
    exact renderStep_alternationInv (seekStep_alternationInv hs hinv)

theorem mainLoop_alternationInv [FloorRing K] {lib : Libc K} {env : Env} {rows cols : Int} {start : Grid}
    (fuel : Nat) (d d' : Driver K)
    (h : mainLoop lib env rows cols fuel d = .ok d')
    (hinv : alternationInv rows cols start d) : alternationInv rows cols start d' := by
  induction fuel generalizing d with
  | zero =>
    simp only [mainLoop, Except.ok.injEq] at h
    subst h
    exact hinv
  | succ n ih =>
    unfold mainLoop at h
    by_cases hq : d.quit = true
    · simp only [hq, if_true, Except.ok.injEq] at h
      subst h
      exact hinv
    · cases hb : loopBody lib env rows cols d with
      | error f => simp [hq, hb, bind, Except.bind] at h
      | ok d1 =>
        simp only [hq, hb, bind, Except.bind, if_false] at h
        exact ih d1 h (loopBody_alternationInv hb hinv)

/-- C12: in every run of the main loop that starts seeking on a spin grid with
an empty log, accepted flips and renders strictly alternate: of two
consecutive log entries the newer one is a render exactly when the older one is
a call of `transitionState` that returned true, and the oldest entry is not a
render; the number of renders never exceeds the number of accepted flips, which
never exceeds the number of renders plus one; and each rendered array differs
in exactly one cell from the previously rendered array (from the starting array
for the first render). -/
theorem flips_and_renders_alternate [FloorRing K] (lib : Libc K) (env : Env) (rows cols : Int)
    (fuel : Nat) (d d' : Driver K) (hlog : d.log = []) (hready : d.transitionReady = false)
    (hspin : spinGrid rows cols d.state)
    (h : mainLoop lib env rows cols fuel d = .ok d') :
    List.Chain' alternates d'.log ∧
    (∀ a ∈ d'.log.getLast?, a.isRender = false) ∧
    renderCount d'.log ≤ acceptCount d'.log ∧
    acceptCount d'.log ≤ renderCount d'.log + 1 ∧
    List.Chain' (oneCellApart rows cols) (frames d.state d'.log) := by
  have hinv : alternationInv rows cols d.state d := by
    refine ⟨hspin, ?_, ?_, ?_, ?_, ?_, ?_⟩ <;>
      simp [hlog, hready, acceptCount, renderCount, frames]
  obtain ⟨_, i2, i3, _, i5, i6, _⟩ := mainLoop_alternationInv fuel d d' h hinv
  refine ⟨i2, i3, ?_, ?_, i6⟩
  · rw [i5]; omega
  · rw [i5]; split_ifs <;> omega

/-- C12 (witness): in the two iterations of the run on `diagGrid` the log is
step, render, step, render, and the three frames (the starting array and the
two rendered arrays) are one cell apart. -/
theorem flips_and_renders_alternate_witness :
    List.Chain' alternates
      [Act.render 300 400 10 (flipped (flipped diagGrid 0 0) 1 1), Act.step true,
       Act.render 100 200 10 (flipped diagGrid 0 0), Act.step true] ∧
    List.Chain' (oneCellApart 2 2)
      [flipped (flipped diagGrid 0 0) 1 1, flipped diagGrid 0 0, diagGrid] := by
  have h := flips_and_renders_alternate (K := ℝ) ⟨32767, Real.exp⟩ risingEnv 2 2 2 diagDriver _
    rfl rfl spinGrid_diagGrid (mainLoop_diagDriver _)
  exact ⟨h.1, by simpa [frames, diagDriver] using h.2.2.2.2⟩

/-! ## C13: dimensions that are not positive -/

/-- C13 (failing input): for the command line `main.exe 0 0` the program ends
up with `rows = 0` and `cols = 0`; nothing rejects them: the loop variables are
set up and the loop is entered, and the first call of `transitionState`
evaluates `rand() % cols` with the divisor `0`. -/
theorem zero_dimensions_reach_the_kernel :
    parseDims [0, 0] = (0, 0) ∧
    main (K := ℝ) ⟨32767, Real.exp⟩ idleEnv true [0, 0] upGrid 0
      = .ok (some (startDriver idleEnv 0 0 upGrid)) ∧
    transitionState (K := ℝ) ⟨32767, Real.exp⟩ initialParams idleEnv.rand 0 0 0 upGrid
      = .error .divByZero ∧
    main (K := ℝ) ⟨32767, Real.exp⟩ idleEnv true [0, 0] upGrid 1 = .error .divByZero := by
  refine ⟨rfl, ?_, ?_, ?_⟩
  · simp [main, mainLoop, parseDims, bind, Except.bind, pure, Except.pure]
  · simp [transitionState, selectCell, cRem, bind, Except.bind]
  · simp [main, mainLoop, loopBody, seekStep, startDriver, initState, idleEnv, handleEvents,
      parseDims, transitionState, selectCell, cRem, bind, Except.bind, pure, Except.pure]

/-! ## C14: one key changes one parameter -/

/-- C14 (failing input): with `wait = 2147483640` a press of the K key leaves
`wait = -2147483646`: the addition `wait += 10` has left the range of `int`, it
is not followed by a clamp, and the result is neither `wait + 10` nor `>= 0`. -/
theorem k_press_overflows_wait :
    (handleEvents (fullWait : Params ℚ) [Event.keydown Key.k]).params.wait = -2147483646 ∧
    (specAdjust (fullWait : Params ℚ) Key.k).wait = 2147483650 := by
  constructor
  · simp [handleEvents, keyDown, fullWait, toInt32]
  · simp [specAdjust, fullWait]

/-! ## C15: when an accepted flip is rendered -/

theorem transitionState_downGrid_params [FloorRing K] (lib : Libc K) (p : Params K)
    (hj : p.j = 1) (hh : p.h = 0) :
    transitionState lib p (fun _ => 0) 0 2 2 downGrid
      = .ok ⟨true, flipped downGrid 0 0, 2⟩ := by
  rw [transitionState_eq lib _ _ _ _ _ _ 0 0 _ selectCell_zero (initialEnergy_downGrid _)]
  simp [hj, hh]

theorem seekStep_timer [FloorRing K] {lib : Libc K} {env : Env} {rows cols : Int} {d d' : Driver K}
    (h : seekStep lib env rows cols d = .ok d') :
    d'.timer = d.timer ∧ d'.tickPos = d.tickPos ∧ d'.params = d.params ∧
    (d'.transitionReady = true ↔
      d.transitionReady = true ∨ acceptCount d'.log = acceptCount d.log + 1) := by
  unfold seekStep at h
  by_cases hr : d.transitionReady = true
  · simp only [hr, if_true, pure, Except.pure, Except.ok.injEq] at h
    subst h
    simp [hr]
  · rw [Bool.not_eq_true] at hr
    cases ho : transitionState lib d.params env.rand d.randPos rows cols d.state with
    | error f => simp [hr, ho, bind, Except.bind] at h
    | ok o =>
      simp only [hr, ho, bind, Except.bind, pure, Except.pure, Bool.false_eq_true, if_false,
        Except.ok.injEq] at h
      subst h
      cases hacc : o.accepted <;> simp [hr, acceptCount]

theorem loopBody_stampedDriver [FloorRing K] (lib : Libc K) :
    loopBody lib idleEnv 2 2 (stampedDriver : Driver K)
      = .ok ⟨initialParams, flipped downGrid 0 0, 5, true, false, 1, 2, 1, [Act.step true]⟩ := by
  simp only [loopBody, seekStep, stampedDriver, idleEnv, handleEvents,
    Bool.false_eq_true, if_false, transitionState_downGrid, bind, Except.bind, pure,
    Except.pure]
  simp [renderStep, toUint32, initialParams]

theorem loopBody_waitingDriver [FloorRing K] (lib : Libc K) :
    loopBody lib lateEnv 2 2 (waitingDriver : Driver K)
      = .ok ⟨⟨0, 1 / 5, 1, 10⟩, flipped downGrid 0 0, 100, false, false, 1, 2, 2,
          [Act.render 100 100 10 (flipped downGrid 0 0), Act.step true]⟩ := by
  have h := transitionState_downGrid_params lib ⟨0, 1 / 5, 1, 10⟩ rfl rfl
  simp only [loopBody, seekStep, waitingDriver, lateEnv, handleEvents,
    Bool.false_eq_true, if_false, h, bind, Except.bind, pure, Except.pure]
  simp [renderStep, toUint32]

/-- C15 (counterexample): (1) a driver with `wait = 0` whose `timer` holds `5`
accepts a flip while the clock reads `5`; at the clock check of that iteration
`now - ta = 0 >= wait`, yet no render is performed (the log holds the step
only, the flip stays pending, `timer` is unchanged). (2) a driver with
`wait = 10` whose `timer` holds `0` accepts a flip while the clock reads `100`;
at the clock check of that iteration `now - ta = 0 < wait`, yet the render is
performed, because the test compares `now` with `timer`, which the accepted
flip did not change. -/
theorem render_test_ignores_acceptance_time :
    loopBody (K := ℝ) ⟨32767, Real.exp⟩ idleEnv 2 2 stampedDriver
      = .ok ⟨initialParams, flipped downGrid 0 0, 5, true, false, 1, 2, 1, [Act.step true]⟩ ∧
    loopBody (K := ℝ) ⟨32767, Real.exp⟩ lateEnv 2 2 waitingDriver
      = .ok ⟨⟨0, 1 / 5, 1, 10⟩, flipped downGrid 0 0, 100, false, false, 1, 2, 2,
          [Act.render 100 100 10 (flipped downGrid 0 0), Act.step true]⟩ :=
  ⟨loopBody_stampedDriver _, loopBody_waitingDriver _⟩

/-- C15 (amended): in an iteration of the main loop the clock is not read and
`timer` is not changed when `transitionState` returns true; `timer` holds the
clock value stored at the previous render (or before the loop). A render is
performed in the iteration exactly when a flip is pending (from an earlier
iteration or accepted in this one) and the clock check gives
`now - timer > wait` strictly (in `Uint32` arithmetic, with the `wait` in
force after the poll); at that render `timer` is set to a new clock reading and
the driver resumes seeking; without a render `timer` stays and a pending flip
stays pending. -/
theorem render_test_of_iteration [FloorRing K] (lib : Libc K) (env : Env) (rows cols : Int)
    (d d' : Driver K) (h : loopBody lib env rows cols d = .ok d') :
    (renderCount d'.log = renderCount d.log + 1 ↔
      (d.transitionReady = true ∨ acceptCount d'.log = acceptCount d.log + 1) ∧
      toUint32 (toUint32 (env.ticks d.tickPos) - d.timer)
        > toUint32 (handleEvents d.params (env.events d.iter)).params.wait) ∧
    (renderCount d'.log = renderCount d.log + 1 →
      d'.timer = toUint32 (env.ticks (d.tickPos + 1)) ∧ d'.transitionReady = false) ∧
    (renderCount d'.log ≠ renderCount d.log + 1 →
      renderCount d'.log = renderCount d.log ∧ d'.timer = d.timer ∧
      (d'.transitionReady = true ↔
        d.transitionReady = true ∨ acceptCount d'.log = acceptCount d.log + 1)) := by
  unfold loopBody at h
  cases hs : seekStep lib env rows cols
      { d with quit := (handleEvents d.params (env.events d.iter)).quit,
               params := (handleEvents d.params (env.events d.iter)).params,
               iter := d.iter + 1 } with
  | error f => simp [hs, bind, Except.bind] at h
  | ok d2 =>
    simp only [hs, bind, Except.bind, pure, Except.pure, Except.ok.injEq] at h
    subst h
    obtain ⟨t1, t2, t3, t4⟩ := seekStep_timer hs
    obtain ⟨_, _, s3⟩ := seekStep_ok hs
    simp only at t1 t2 t3 t4 s3
    by_cases hr : d2.transitionReady = true
    · by_cases hc : toUint32 (toUint32 (env.ticks d2.tickPos) - d2.timer)
          > toUint32 d2.params.wait
      · have hc' := hc
        rw [t1, t2, t3] at hc'
        have hR : renderStep env d2 =
            { d2 with timer := toUint32 (env.ticks (d2.tickPos + 1)), transitionReady := false,
                      tickPos := d2.tickPos + 2,
                      log := .render (toUint32 (env.ticks d2.tickPos))
                        (toUint32 (env.ticks (d2.tickPos + 1))) d2.params.wait d2.state
                        :: d2.log } := by
          simp only [renderStep, hr, if_true, hc]
        rw [hR]
        have hcount : renderCount (Act.render (toUint32 (env.ticks d2.tickPos))
            (toUint32 (env.ticks (d2.tickPos + 1))) d2.params.wait d2.state :: d2.log)
            = renderCount d.log + 1 := by
          simp [renderCount, Act.isRender] at s3 ⊢
          exact s3
        refine ⟨⟨fun _ => ⟨?_, hc'⟩, fun _ => hcount⟩, fun _ => ⟨by rw [t2], rfl⟩,
          fun hne => absurd hcount hne⟩
        simpa [acceptCount] using t4.mp hr
      · have hc' := hc
        rw [t1, t2, t3] at hc'
        have hR : renderStep env d2 = { d2 with tickPos := d2.tickPos + 1 } := by
          simp only [renderStep, hr, if_true, hc, if_false]
        rw [hR]
        refine ⟨⟨fun hcnt => ?_, fun hx => absurd hx.2 hc'⟩, fun hcnt => ?_,
          fun _ => ⟨s3, t1, t4⟩⟩
        · simp only at hcnt
          omega
        · simp only at hcnt
          omega
    · have hR : renderStep env d2 = d2 := by
        simp only [renderStep, hr, if_false]
        rfl
      rw [hR]
      refine ⟨⟨fun hcnt => by omega, fun hx => absurd (t4.mpr hx.1) hr⟩, fun hcnt => by omega,
        fun _ => ⟨s3, t1, t4⟩⟩


/-- C15 (witness): the driver with `wait = 10` and `timer = 0` renders in the
iteration in which the clock reads `100`; `timer` then holds the new reading
and the driver is seeking again. -/
theorem render_test_of_iteration_witness :
    ∃ d', loopBody (K := ℝ) ⟨32767, Real.exp⟩ lateEnv 2 2 waitingDriver = .ok d' ∧
      d'.timer = toUint32 (lateEnv.ticks ((waitingDriver : Driver ℝ).tickPos + 1)) ∧
      d'.transitionReady = false :=
  ⟨_, loopBody_waitingDriver _,
    (render_test_of_iteration (K := ℝ) ⟨32767, Real.exp⟩ lateEnv 2 2 waitingDriver _
      (loopBody_waitingDriver _)).2.1 (by simp [renderCount, Act.isRender, waitingDriver])⟩

/-! ## C16: the energy after the flip -/

theorem neighbourSum_of_inGrid {rows cols : Int} (state : Grid) {x y : Int}
    (h1 : inGrid rows cols (xL cols x) y)
    (h2 : inGrid rows cols (xR cols x) y) (h3 : inGrid rows cols x (yT rows y))
    (h4 : inGrid rows cols x (yB rows y)) :
    neighbourSum rows cols state x y
      = .ok (state (xL cols x) y + state (xR cols x) y + state x (yT rows y)
            + state x (yB rows y)) := by
  simp only [neighbourSum, readCell, h1, h2, h3, h4, if_true, bind, Except.bind, pure,
    Except.pure]

/-- C16 (counterexample): on the 1 x 1 grid holding `+1`, with the initial
parameters (`j = 1`, `h = 0`), the four neighbours of the cell `[0][0]` are the
cell itself: the energy formula gives `E_initial = -4`, and on the grid with
the cell flipped it gives `-4` again, not `-E_initial = 4`. -/
theorem energy_not_negated_on_single_cell_grid :
    selectCell (fun _ => 0) 0 1 1 = .ok (0, 0) ∧
    touched 1 1 0 0 = [(0, 0), (0, 0), (0, 0), (0, 0), (0, 0)] ∧
    initialEnergy (K := ℝ) initialParams 1 1 upGrid 0 0 = .ok (-4) ∧
    initialEnergy (K := ℝ) initialParams 1 1 (flipped upGrid 0 0) 0 0 = .ok (-4) ∧
    (-4 : ℝ) ≠ -(-4) := by
  refine ⟨?_, ?_, ?_, ?_, by norm_num⟩
  · simp [selectCell, cRem, bind, Except.bind, pure, Except.pure]
  · simp [touched, xL, xR, yT, yB]
  · simp [initialEnergy, neighbourSum, readCell, inGrid, xL, xR, yT, yB, upGrid,
      initialParams, bind, Except.bind, pure, Except.pure]
  · simp [initialEnergy, neighbourSum, readCell, inGrid, xL, xR, yT, yB, upGrid, flipped,
      setCell, toChar, initialParams, bind, Except.bind, pure, Except.pure]

/-- C16 (amended): on a spin grid with at least two rows and two columns, for
every coupling and field and every chosen cell `(x, y)` whose energy the code
can read, the energy formula evaluated at `(x, y)` on the grid with that cell
flipped gives exactly `-E_initial`. -/
theorem energy_negated_by_flip (p : Params K) (rows cols : Int) (state : Grid)
    (x y : Int) (e : K) (hr : 2 ≤ rows) (hc : 2 ≤ cols)
    (hspin : spinGrid rows cols state)
    (hE : initialEnergy p rows cols state x y = .ok e) :
    initialEnergy p rows cols (flipped state x y) x y = .ok (-e) := by
  obtain ⟨hin, n, hn, he⟩ := initialEnergy_ok hE
  obtain ⟨h1, h2, h3, h4, hsum⟩ := neighbourSum_ok hn
  have hs := hspin x y hin
  have hxL : xL cols x ≠ x := by unfold xL; split_ifs <;> omega
  have hxR : xR cols x ≠ x := by unfold xR; split_ifs <;> omega
  have hyT : yT rows y ≠ y := by unfold yT; split_ifs <;> omega
  have hyB : yB rows y ≠ y := by unfold yB; split_ifs <;> omega
  have f0 : flipped state x y x y = -state x y := by
    simp only [flipped, setCell, and_self, if_true]
    exact toChar_neg_spin hs
  have f1 : flipped state x y (xL cols x) y = state (xL cols x) y := by
    simp [flipped, setCell, hxL]
  have f2 : flipped state x y (xR cols x) y = state (xR cols x) y := by
    simp [flipped, setCell, hxR]
  have f3 : flipped state x y x (yT rows y) = state x (yT rows y) := by
    simp [flipped, setCell, hyT]
  have f4 : flipped state x y x (yB rows y) = state x (yB rows y) := by
    simp [flipped, setCell, hyB]
  rw [initialEnergy_of_inGrid p (flipped state x y) hin h1 h2 h3 h4, f0, f1, f2, f3, f4,
    ← hsum, he]
  congr 1
  push_cast
  ring

/-- C16 (witness): on the all-up 2 x 2 grid the cell `[0][0]` has energy `-4`,
and on the grid with that cell flipped the formula gives `4`. -/
theorem energy_negated_by_flip_witness :
    initialEnergy (K := ℝ) initialParams 2 2 (flipped upGrid 0 0) 0 0
      = .ok (-(-initialParams.j * ((1 : Int) : ℝ) * ((4 : Int) : ℝ)
          - initialParams.h * ((1 : Int) : ℝ))) :=
  energy_negated_by_flip initialParams 2 2 upGrid 0 0 _ (by norm_num) (by norm_num)
    spinGrid_upGrid (initialEnergy_upGrid _)

/-! ## C17: draws consumed by a step -/

/-- C17: for the chosen cell `(x, y)` with initial energy `e`: `E_final < E_initial`
holds exactly when `E_initial > 0`; in that case `transitionState` flips the
chosen cell and returns true, whatever the temperature, having read exactly
the two cell-selection draws; in every other case the call returns having read
a third draw. -/
theorem strict_descent_reads_two_draws [FloorRing K] (lib : Libc K) (p : Params K)
    (rand : Nat → Nat) (pos : Nat) (rows cols : Int) (state : Grid) (x y : Int) (e : K)
    (hsel : selectCell rand pos rows cols = .ok (x, y))
    (hE : initialEnergy p rows cols state x y = .ok e) :
    (-e < e ↔ 0 < e) ∧
    (-e < e → transitionState lib p rand pos rows cols state
        = .ok ⟨true, flipped state x y, pos + 2⟩) ∧
    (¬ -e < e → ∃ o, transitionState lib p rand pos rows cols state = .ok o ∧
        o.pos = pos + 3) := by
  rw [transitionState_eq lib p rand pos rows cols state x y e hsel hE]
  refine ⟨⟨fun h => by linarith, fun h => by linarith⟩, ?_, ?_⟩
  · intro h
    rw [if_neg (not_le.mpr h)]
  · intro h
    rw [if_pos (not_lt.mp h)]
    split_ifs <;> exact ⟨_, rfl, rfl⟩

/-- C17 (witness): on `downGrid` the chosen cell has energy `4 > 0`; the step
flips it and the next unread draw is the third one. -/
theorem strict_descent_reads_two_draws_witness :
    transitionState (K := ℝ) ⟨32767, Real.exp⟩ initialParams (fun _ => 0) 0 2 2 downGrid
      = .ok ⟨true, flipped downGrid 0 0, 0 + 2⟩ :=
  (strict_descent_reads_two_draws (K := ℝ) ⟨32767, Real.exp⟩ initialParams (fun _ => 0) 0 2 2
    downGrid 0 0 _ selectCell_zero (initialEnergy_downGrid _)).2.1
    (by norm_num [initialParams])

/-! ## C18: square grids -/

theorem pred_emod {n x : Int} (hx0 : 0 ≤ x) (hx1 : x < n) :
    (if x = 0 then n - 1 else x - 1) = (x - 1) % n := by
  split_ifs with h
  · subst h
    have h1 : (0 - 1 : Int) % n = (n - 1) % n := by
      rw [← Int.add_emod_self]
      congr 1
      ring
    rw [h1, Int.emod_eq_of_lt (by omega) (by omega)]
  · rw [Int.emod_eq_of_lt (by omega) (by omega)]

theorem succ_emod {n x : Int} (hx0 : 0 ≤ x) (hx1 : x < n) :
    (if x = n - 1 then 0 else x + 1) = (x + 1) % n := by
  split_ifs with h
  · subst h
    rw [Int.sub_add_cancel, Int.emod_self]
  · rw [Int.emod_eq_of_lt (by omega) (by omega)]

/-- C18: on an `n x n` grid with `n >= 1`, for every pair of `rand()` results
the call chooses a cell `(x, y)`, the five subscript pairs it uses are inside
the grid, and the neighbour sum it computes is the sum of the cells
`((x-1) mod n, y)`, `((x+1) mod n, y)`, `(x, (y-1) mod n)`, `(x, (y+1) mod n)`. -/
theorem square_grid_neighbours (rand : Nat → Nat) (pos : Nat) (n : Int) (hn : 1 ≤ n)
    (state : Grid) :
    ∃ x y, selectCell rand pos n n = .ok (x, y) ∧
      (∀ c ∈ touched n n x y, inGrid n n c.1 c.2) ∧
      neighbourSum n n state x y
        = .ok (state ((x - 1) % n) y + state ((x + 1) % n) y
            + state x ((y - 1) % n) + state x ((y + 1) % n)) := by
  have hpos : 0 < n := by omega
  obtain ⟨_, hx0, hx1⟩ := cRem_ok (r := rand pos) hpos
  obtain ⟨_, hy0, hy1⟩ := cRem_ok (r := rand (pos + 1)) hpos
  refine ⟨(rand pos : Int) % n, (rand (pos + 1) : Int) % n, selectCell_ok rand pos hpos hpos,
    ?_, ?_⟩
  · intro c hc
    simp only [touched, List.mem_cons, List.mem_singleton, List.not_mem_nil, or_false] at hc
    rcases hc with rfl | rfl | rfl | rfl | rfl
    · exact ⟨hx0, hx1, hy0, hy1⟩
    · simp only [xL, inGrid]; split_ifs <;> omega
    · simp only [xR, inGrid]; split_ifs <;> omega
    · simp only [yT, inGrid]; split_ifs <;> omega
    · simp only [yB, inGrid]; split_ifs <;> omega
  · have e1 := pred_emod hx0 hx1
    have e2 := succ_emod hx0 hx1
    have e3 := pred_emod hy0 hy1
    have e4 := succ_emod hy0 hy1
    rw [neighbourSum_of_inGrid state
      (by simp only [xL, inGrid]; split_ifs <;> omega)
      (by simp only [xR, inGrid]; split_ifs <;> omega)
      (by simp only [yT, inGrid]; split_ifs <;> omega)
      (by simp only [yB, inGrid]; split_ifs <;> omega)]
    simp only [xL, xR, yT, yB, e1, e2, e3, e4]

/-- C18 (witness): on the all-up 2 x 2 grid a cell is chosen, its five
subscript pairs are inside the grid and the neighbour sum is defined. -/
theorem square_grid_neighbours_witness :
    ∃ x y, selectCell (fun _ => 0) 0 2 2 = .ok (x, y) ∧
      (∀ c ∈ touched 2 2 x y, inGrid 2 2 c.1 c.2) ∧
      neighbourSum 2 2 upGrid x y
        = .ok (upGrid ((x - 1) % 2) y + upGrid ((x + 1) % 2) y
            + upGrid x ((y - 1) % 2) + upGrid x ((y + 1) % 2)) :=
  square_grid_neighbours (fun _ => 0) 0 2 (by norm_num) upGrid

end Ising
